import Mathlib

/-!
Verification of the glow.ts client library against its natural-language
specification.  The TypeScript sources are shallowly embedded: byte arrays
(`Uint8Array`) become `List Nat` with every element below 256, JavaScript
numbers used as array indices or counters become `Nat`/`Int`, `null`-able
results become `Option`, and code that can `throw` returns `Except String`.
External JavaScript builtins (`btoa`/`atob`, `JSON.parse`) and external
libraries (`tweetnacl`, `js-sha256`) are modelled by executable Lean
functions implementing their documented behaviour, or taken as parameters
where only their interface matters.
-/

set_option maxRecDepth 20000

/-! ### JavaScript `parseInt(str, 10)`
Skips leading whitespace, consumes an optional sign and then a maximal run
of decimal digits; yields `none` (JavaScript `NaN`) when no digit is found. -/

/-- Whitespace characters skipped by `parseInt`. -/
def jsIsSpace (c : Char) : Bool :=
  c = ' ' || c = '\t' || c = '\n' || c = '\r'

/-- Numeric value of a run of decimal digits. -/
def digitsVal (l : List Char) : Nat :=
  l.foldl (fun a c => 10 * a + (c.toNat - 48)) 0

/-- Model of JavaScript `parseInt(s, 10)`; `none` stands for `NaN`. -/
def parseIntJS (s : String) : Option Int :=
  let l := s.data.dropWhile jsIsSpace
  let (sign, rest) : Int × List Char :=
    match l with
    | '-' :: r => (-1, r)
    | '+' :: r => (1, r)
    | _ => (1, l)
  let digits := rest.takeWhile Char.isDigit
  if digits.isEmpty then none
  else some (sign * (digitsVal digits : Int))

/-! ### `zax.interface.ts`: `MessageStatusResponse` (redis TTL sentinels) -/

/-- Sentinel `-2`: the storage token is missing on the relay. -/
def MessageStatusResponse.MissingKey : Int := -2

/-- Sentinel `-1`: the message never expires. -/
def MessageStatusResponse.NeverExpires : Int := -1

/-! ### `mailbox.ts`: `Mailbox.messageStatus`, response processing
The relay answers the `messageStatus` command with a single line; the code
runs `parseInt(response, 10)` on it and then maps both sentinel values to
`0` before returning.  Only the response-processing tail of the method is
embedded (the relay round trip itself is network I/O). -/

/-- Embedding of the body of `Mailbox.messageStatus` after the relay
response line has been received (`mailbox.ts` lines 834-842).  `none`
stands for the `NaN` that `parseInt` yields on a non-numeric line. -/
def messageStatusProcess (response : String) : Option Int :=
  match parseIntJS response with
  | none => none
  | some status =>
    if status == MessageStatusResponse.MissingKey
        || status == MessageStatusResponse.NeverExpires then some 0
    else some status

/-! ### `js-nacl-driver.ts`: hex helpers (`to_hex`, `from_hex`) -/

/-- Hex alphabet used by `JsNaClDriver.to_hex`. -/
def hexAlphabet : List Char := "0123456789abcdef".data

/-- Character list produced by `JsNaClDriver.to_hex` for a byte list. -/
def to_hexChars (data : List Nat) : List Char :=
  data.foldr
    (fun b acc =>
      hexAlphabet.getD ((b >>> 4) &&& 15) '?' :: hexAlphabet.getD (b &&& 15) '?' :: acc) []

/-- Embedding of `JsNaClDriver.to_hex`. -/
def to_hex (data : List Nat) : String := String.mk (to_hexChars data)

/-- Value of one hex digit character, as `parseInt(c, 16)` computes it. -/
def hexVal (c : Char) : Option Nat :=
  if '0' ≤ c && c ≤ '9' then some (c.toNat - 48)
  else if 'a' ≤ c && c ≤ 'f' then some (c.toNat - 87)
  else if 'A' ≤ c && c ≤ 'F' then some (c.toNat - 55)
  else none

/-- Pair-consuming core of `JsNaClDriver.from_hex`: each two characters
become one byte via `parseInt(hex[i] + hex[i+1], 16)`. -/
def from_hexChars : List Char → Option (List Nat)
  | c1 :: c2 :: rest => do
    let v1 ← hexVal c1
    let v2 ← hexVal c2
    let tail ← from_hexChars rest
    pure ((16 * v1 + v2) :: tail)
  | [] => some []
  | [_] => none

/-- Embedding of `JsNaClDriver.from_hex` (`none` models the exception paths
for inputs the driver never produces). -/
def from_hex (data : String) : Option (List Nat) := from_hexChars data.data

/-! ### Base64 (`Utils.toBase64` / `Utils.fromBase64` over `btoa`/`atob`)
`Utils` converts a byte array to a Latin-1 string and feeds it to the
JavaScript builtin `btoa` (resp. decodes with `atob`).  The composition is
standard RFC 4648 Base64 over the raw bytes, which is what is embedded
here; `none` models the `atob` exception on malformed input. -/

/-- RFC 4648 Base64 alphabet. -/
def base64Alphabet : List Char :=
  "ABCDEFGHIJKLMNOPQRSTUVWXYZabcdefghijklmnopqrstuvwxyz0123456789+/".data

/-- Character for a 6-bit group. -/
def b64CharOf (n : Nat) : Char := base64Alphabet.getD n '?'

/-- Base64-encode a byte list, three bytes at a time, padding with `=`. -/
def b64EncodeChars : List Nat → List Char
  | [] => []
  | [a] => [b64CharOf (a / 4), b64CharOf (a % 4 * 16), '=', '=']
  | [a, b] => [b64CharOf (a / 4), b64CharOf (a % 4 * 16 + b / 16), b64CharOf (b % 16 * 4), '=']
  | a :: b :: c :: rest =>
    b64CharOf (a / 4) :: b64CharOf (a % 4 * 16 + b / 16) ::
      b64CharOf (b % 16 * 4 + c / 64) :: b64CharOf (c % 64) :: b64EncodeChars rest

/-- Embedding of `Utils.toBase64`. -/
def toBase64 (data : List Nat) : String := String.mk (b64EncodeChars data)

/-- Six-bit value of a Base64 alphabet character. -/
def b64ValOf (c : Char) : Option Nat :=
  if 'A' ≤ c && c ≤ 'Z' then some (c.toNat - 65)
  else if 'a' ≤ c && c ≤ 'z' then some (c.toNat - 71)
  else if '0' ≤ c && c ≤ '9' then some (c.toNat + 4)
  else if c = '+' then some 62
  else if c = '/' then some 63
  else none

/-- Base64-decode a character list, four characters at a time. -/
def b64DecodeChars : List Char → Option (List Nat)
  | c1 :: c2 :: c3 :: c4 :: rest =>
    if rest.isEmpty && c3 = '=' && c4 = '=' then do
      let v1 ← b64ValOf c1
      let v2 ← b64ValOf c2
      pure [v1 * 4 + v2 / 16]
    else if rest.isEmpty && c4 = '=' then do
      let v1 ← b64ValOf c1
      let v2 ← b64ValOf c2
      let v3 ← b64ValOf c3
      pure [v1 * 4 + v2 / 16, v2 % 16 * 16 + v3 / 4]
    else do
      let v1 ← b64ValOf c1
      let v2 ← b64ValOf c2
      let v3 ← b64ValOf c3
      let v4 ← b64ValOf c4
      let tail ← b64DecodeChars rest
      pure ((v1 * 4 + v2 / 16) :: (v2 % 16 * 16 + v3 / 4) :: (v3 % 4 * 64 + v4) :: tail)
  | [] => some []
  | _ => none

/-- Embedding of `Utils.fromBase64`. -/
def fromBase64 (data : String) : Option (List Nat) := b64DecodeChars data.data

/-! ### `js-nacl-driver.ts`: `itoa` and `makeNonce` -/

/-- Big-endian base-16 digit list of a positive number, mirroring
JavaScript `num.toString(16)` digit by digit.  The first argument is
structural fuel; `n` itself always suffices because `n < 16 ^ n`. -/
def hexDigitsRec : Nat → Nat → List Nat
  | _, 0 => []
  | 0, _ + 1 => []
  | fuel + 1, n + 1 => hexDigitsRec fuel ((n + 1) / 16) ++ [(n + 1) % 16]

/-- Digit list of `num.toString(16)` (JavaScript renders `0` as `"0"`). -/
def jsHexString (num : Nat) : List Nat :=
  if num = 0 then [0] else hexDigitsRec num num

/-- Folds consecutive pairs of hex digits into bytes. -/
def pairHexBytes : List Nat → List Nat
  | a :: b :: rest => (16 * a + b) :: pairHexBytes rest
  | _ => []

/-- Embedding of `JsNaClDriver.itoa`: hex-encode, left-pad to even length,
then read back two digits per byte. -/
def itoa (num : Nat) : List Nat :=
  let hex := jsHexString num
  let hex := if hex.length % 2 = 1 then 0 :: hex else hex
  pairHexBytes hex

/-- NaCl `box` nonce length. -/
def crypto_box_NONCEBYTES : Nat := 24

/-- JavaScript truthiness of the optional numeric `data` argument:
`undefined` and `0` are falsy. -/
def jsTruthyNum : Option Nat → Bool
  | some k => k != 0
  | none => false

/-- Model of `TypedArray.fill(0, 0, e)`: zero the first `e` entries
(clamped to the length, as in JavaScript). -/
def fillZero (l : List Nat) (e : Nat) : List Nat :=
  List.replicate (min e l.length) 0 ++ l.drop e

/-- Model of `TypedArray.set(src, off)` for a non-negative offset;
`none` models the `RangeError` on overflow. -/
def typedArraySet (l src : List Nat) (off : Nat) : Option (List Nat) :=
  if off + src.length ≤ l.length then
    some (l.take off ++ src ++ l.drop (off + src.length))
  else none

/-- Model of `TypedArray.set(src, off)` for a possibly negative offset
(negative offsets raise `RangeError` in JavaScript). -/
def typedArraySetI (l src : List Nat) (off : Int) : Option (List Nat) :=
  if off < 0 then none else typedArraySet l src off.toNat

/-- Embedding of `JsNaClDriver.makeNonce`.  The initial random 24-byte
nonce and the current time in milliseconds are passed explicitly (the
code obtains them from `crypto_box_random_nonce` and `Date.now()`);
`data` is the optional u32 argument. -/
def makeNonce (randomNonce : List Nat) (nowMs : Nat) (data : Option Nat) :
    Except String (List Nat) :=
  if randomNonce.length ≠ crypto_box_NONCEBYTES then
    .error "[Mailbox] Wrong crypto_box nonce length"
  else
    let aTime := itoa (nowMs / 1000)
    let headerLen := if jsTruthyNum data then 8 + 4 else 8
    let nonce := fillZero randomNonce headerLen
    match typedArraySetI nonce aTime (8 - (aTime.length : Int)) with
    | none => .error "RangeError"
    | some nonce =>
      if jsTruthyNum data then
        let aData := itoa ((data.getD 0))
        match typedArraySetI nonce aData (12 - (aData.length : Int)) with
        | none => .error "RangeError"
        | some nonce => .ok nonce
      else .ok nonce

/-- Big-endian integer value of a byte list (used to state the nonce
layout claims). -/
def beDecode (l : List Nat) : Nat := l.foldl (fun a b => 256 * a + b) 0

/-- Value of a big-endian base-16 digit list (proof helper). -/
def hexFold (l : List Nat) : Nat := l.foldl (fun a d => 16 * a + d) 0

/-! ### SHA-256 (model of the `js-sha256` library)
`JsNaClDriver.crypto_hash_sha256` delegates to the external `js-sha256`
library, which returns the standard SHA-256 digest as a lowercase hex
string.  The library is modelled by an executable implementation of
FIPS 180-4 SHA-256 over byte lists. -/

/-- Truncation to a 32-bit word. -/
def w32 (n : Nat) : Nat := n % 4294967296

/-- Right rotation of a 32-bit word. -/
def rotr (n x : Nat) : Nat := w32 ((x >>> n) ||| (x <<< (32 - n)))

/-- Bitwise complement of a 32-bit word. -/
def not32 (x : Nat) : Nat := x ^^^ 4294967295

/-- The 64 SHA-256 round constants. -/
def sha256K : List Nat :=
  [1116352408, 1899447441, 3049323471, 3921009573, 961987163, 1508970993,
   2453635748, 2870763221, 3624381080, 310598401, 607225278, 1426881987,
   1925078388, 2162078206, 2614888103, 3248222580, 3835390401, 4022224774,
   264347078, 604807628, 770255983, 1249150122, 1555081692, 1996064986,
   2554220882, 2821834349, 2952996808, 3210313671, 3336571891, 3584528711,
   113926993, 338241895, 666307205, 773529912, 1294757372, 1396182291,
   1695183700, 1986661051, 2177026350, 2456956037, 2730485921, 2820302411,
   3259730800, 3345764771, 3516065817, 3600352804, 4094571909, 275423344,
   430227734, 506948616, 659060556, 883997877, 958139571, 1322822218,
   1537002063, 1747873779, 1955562222, 2024104815, 2227730452, 2361852424,
   2428436474, 2756734187, 3204031479, 3329325298]

/-- Big-endian 8-byte encoding of a number (SHA-256 length field). -/
def beBytes8 (n : Nat) : List Nat :=
  [n / 72057594037927936 % 256, n / 281474976710656 % 256,
   n / 1099511627776 % 256, n / 4294967296 % 256,
   n / 16777216 % 256, n / 65536 % 256, n / 256 % 256, n % 256]

/-- SHA-256 padding: append `0x80`, zero bytes up to 56 mod 64, then the
bit length as 8 big-endian bytes. -/
def sha256pad (msg : List Nat) : List Nat :=
  msg ++ (128 :: List.replicate ((119 - msg.length % 64) % 64) 0) ++ beBytes8 (8 * msg.length)

/-- Packs bytes into big-endian 32-bit words. -/
def bytesToWords : List Nat → List Nat
  | a :: b :: c :: d :: rest => (a * 16777216 + b * 65536 + c * 256 + d) :: bytesToWords rest
  | _ => []

/-- Message-schedule extension step: append the word at index `w.length`
computed from the words 2, 7, 15 and 16 positions back. -/
def sha256ExtendStep (w : List Nat) : List Nat :=
  let i := w.length
  let x15 := w.getD (i - 15) 0
  let x2 := w.getD (i - 2) 0
  let s0 := rotr 7 x15 ^^^ rotr 18 x15 ^^^ (x15 >>> 3)
  let s1 := rotr 17 x2 ^^^ rotr 19 x2 ^^^ (x2 >>> 10)
  w ++ [w32 (w.getD (i - 16) 0 + s0 + w.getD (i - 7) 0 + s1)]

/-- Message-schedule extension: grow a 16-word block to 64 words by
48 applications of `sha256ExtendStep`. -/
def sha256Extend (w : List Nat) : Nat → List Nat
  | 0 => w
  | steps + 1 => sha256Extend (sha256ExtendStep w) steps

/-- Working state of the SHA-256 compression function. -/
structure Sha256State where
  a : Nat
  b : Nat
  c : Nat
  d : Nat
  e : Nat
  f : Nat
  g : Nat
  h : Nat

/-- One SHA-256 round, consuming a round constant and a schedule word. -/
def sha256Round (st : Sha256State) (kw : Nat × Nat) : Sha256State :=
  let s1 := rotr 6 st.e ^^^ rotr 11 st.e ^^^ rotr 25 st.e
  let ch := (st.e &&& st.f) ^^^ (not32 st.e &&& st.g)
  let temp1 := w32 (st.h + s1 + ch + kw.1 + kw.2)
  let s0 := rotr 2 st.a ^^^ rotr 13 st.a ^^^ rotr 22 st.a
  let maj := (st.a &&& st.b) ^^^ (st.a &&& st.c) ^^^ (st.b &&& st.c)
  let temp2 := w32 (s0 + maj)
  ⟨w32 (temp1 + temp2), st.a, st.b, st.c, w32 (st.d + temp1), st.e, st.f, st.g⟩

/-- Compression of one 16-word block into the chaining state. -/
def sha256Compress (st : Sha256State) (block : List Nat) : Sha256State :=
  let w := sha256Extend block 48
  let r := (sha256K.zip w).foldl sha256Round st
  ⟨w32 (st.a + r.a), w32 (st.b + r.b), w32 (st.c + r.c), w32 (st.d + r.d),
   w32 (st.e + r.e), w32 (st.f + r.f), w32 (st.g + r.g), w32 (st.h + r.h)⟩

/-- Iterates the compression function over all 16-word blocks (the padded
message is always a whole number of blocks). -/
def sha256Blocks (st : Sha256State) : List Nat → Sha256State
  | w0 :: w1 :: w2 :: w3 :: w4 :: w5 :: w6 :: w7 ::
      w8 :: w9 :: w10 :: w11 :: w12 :: w13 :: w14 :: w15 :: rest =>
    sha256Blocks
      (sha256Compress st [w0, w1, w2, w3, w4, w5, w6, w7, w8, w9, w10, w11, w12, w13, w14, w15])
      rest
  | _ => st

/-- Big-endian byte expansion of a 32-bit word. -/
def wordBytes (x : Nat) : List Nat :=
  [x / 16777216 % 256, x / 65536 % 256, x / 256 % 256, x % 256]

/-- SHA-256 digest (32 bytes) of a byte list. -/
def sha256Bytes (msg : List Nat) : List Nat :=
  let st := sha256Blocks
    ⟨1779033703, 3144134277, 1013904242, 2773480762,
     1359893119, 2600822924, 528734635, 1541459225⟩
    (bytesToWords (sha256pad msg))
  wordBytes st.a ++ wordBytes st.b ++ wordBytes st.c ++ wordBytes st.d ++
    wordBytes st.e ++ wordBytes st.f ++ wordBytes st.g ++ wordBytes st.h

/-- Model of the `js-sha256` library entry point: hex digest string. -/
def sha256hex (data : List Nat) : String := to_hex (sha256Bytes data)

/-- Embedding of `JsNaClDriver.crypto_hash_sha256`:
`this.from_hex(sha256(data))`. -/
def crypto_hash_sha256 (data : List Nat) : List Nat :=
  (from_hex (sha256hex data)).getD []

/-! ### `js-nacl-driver.ts`: `encode_latin1` and `h2` -/

/-- Embedding of `JsNaClDriver.encode_latin1`: each UTF-16 code unit must
fit in one byte, else the driver throws. -/
def encode_latin1 (data : String) : Except String (List Nat) :=
  if data.data.all (fun c => c.toNat &&& 255 = c.toNat) then
    .ok (data.data.map Char.toNat)
  else .error "Cannot encode string in Latin1"

/-- Embedding of `JsNaClDriver.h2` on byte input: zero-fill a 64-byte
block, append the data, and double-hash. -/
def h2 (data : List Nat) : List Nat :=
  crypto_hash_sha256 (crypto_hash_sha256 (List.replicate 64 0 ++ data))

/-- Embedding of `JsNaClDriver.h2` on string input (the code first applies
`encode_latin1`). -/
def h2String (data : String) : Except String (List Nat) :=
  (encode_latin1 data).map h2

/-! ### `relay.ts`: proof-of-work difficulty check
`Relay.arrayZeroBits` walks the byte array with a cursor `i` and a
remaining-bit counter `n` (initially the difficulty).  Out-of-range reads
(`array[i]` past the end) yield JavaScript `undefined`, which compares
`false` both in `byte > 0` and in the strict equality of
`firstZeroBits`; they are modelled by `Option`. -/

/-- JavaScript `byte > 0` where `byte` may be `undefined`. -/
def jsGTzero : Option Nat → Bool
  | some b => decide (0 < b)
  | none => false

/-- Embedding of `Relay.firstZeroBits`: `byte === ((byte >> n) << n)`;
an out-of-range (`undefined`) byte strictly equals no number. -/
def firstZeroBits : Option Nat → Nat → Bool
  | some byte, n => byte == (byte >>> n) <<< n
  | none, _ => false

/-- Embedding of the `for` loop of `Relay.arrayZeroBits`.  The JavaScript
condition `i <= 1 + difficulty / 8` (floating-point division) is the
integer condition `8 * i ≤ 8 + d`.  The first argument is structural
fuel; `d + 2` steps always suffice, and an exhausted-fuel exit coincides
with the loop's own `return false`. -/
def arrayZeroBitsLoop (d : Nat) (a : List Nat) : Nat → Nat → Nat → Bool
  | 0, _, _ => false
  | fuel + 1, i, n =>
    if 8 * i ≤ 8 + d then
      let byte := a[i]?
      if n = 0 then true
      else if n > 8 then
        if jsGTzero byte then false
        else arrayZeroBitsLoop d a fuel (i + 1) (n - 8)
      else firstZeroBits byte n
    else false

/-- Embedding of `Relay.arrayZeroBits` at difficulty `d`. -/
def arrayZeroBits (d : Nat) (a : List Nat) : Bool :=
  arrayZeroBitsLoop d a (d + 2) 0 d

/-- The specification predicate of §4.4.2: bytes `a[0..d/8)` are all zero
and the low `d mod 8` bits of byte `a[d/8]` are zero. -/
def arrayZeroBitsSpec (d : Nat) (a : List Nat) : Bool :=
  (List.range (d / 8)).all (fun i => a.getD i 1 == 0) && a.getD (d / 8) 1 % 2 ^ (d % 8) == 0

/-- Embedding of `Relay.ensureNonceDifficulty`: the stream of 32-byte
nonces drawn from the CSPRNG is passed as an explicit candidate list; the
do/while loop returns the first candidate whose `h2` digest passes
`arrayZeroBits` (or `none` if the stream is exhausted). -/
def ensureNonceDifficulty (d : Nat) (h2fn : List Nat → List Nat) (handshake : List Nat) :
    List (List Nat) → Option (List Nat)
  | [] => none
  | nonce :: rest =>
    if arrayZeroBits d (h2fn (handshake ++ nonce)) then some nonce
    else ensureNonceDifficulty d h2fn handshake rest

/-! ### JSON values and JavaScript truthiness -/

/-- Values produced by `JSON.parse` / consumed by `JSON.stringify`. -/
inductive JsValue where
  | jnull : JsValue
  | jbool : Bool → JsValue
  | jnum : Int → JsValue
  | jstr : String → JsValue
  | jarr : List JsValue → JsValue
  | jobj : List (String × JsValue) → JsValue
deriving BEq

/-- JavaScript falsiness of a JSON value (`null`, `false`, `0`, `""`). -/
def jsFalsy : JsValue → Bool
  | .jnull => true
  | .jbool b => !b
  | .jnum n => n == 0
  | .jstr s => s == ""
  | _ => false

/-- JavaScript falsiness of a driver read (`null`/`undefined` or `""`). -/
def jsFalsyStr : Option String → Bool
  | none => true
  | some s => s == ""

/-! ### JavaScript `Map` and plain-object operations
A JavaScript `Map` preserves insertion order; `set` overwrites in place,
`delete` removes the entry.  Building a plain object key by key behaves
the same way for the string keys used here.  Both are modelled as
association lists with unique keys. -/

/-- `map.set(k, v)` / `obj[k] = v`: replace in place or append. -/
def jsMapSet {β : Type} (m : List (String × β)) (k : String) (v : β) : List (String × β) :=
  if m.any (fun p => p.1 == k) then m.map (fun p => if p.1 == k then (k, v) else p)
  else m ++ [(k, v)]

/-- `map.get(k)` / `obj[k]`: the first (unique) entry with key `k`. -/
def jsMapGet {β : Type} (m : List (String × β)) (k : String) : Option β :=
  (m.find? (fun p => p.1 == k)).map (fun p => p.2)

/-- `map.has(k)`. -/
def jsMapHas {β : Type} (m : List (String × β)) (k : String) : Bool :=
  m.any (fun p => p.1 == k)

/-- `map.delete(k)`. -/
def jsMapDelete {β : Type} (m : List (String × β)) (k : String) : List (String × β) :=
  m.filter (fun p => p.1 != k)

/-! ### `keys.ts`: the `Keys` wrapper -/

/-- A NaCl keypair as raw bytes (`keypair.interface.ts`). -/
structure Keypair where
  boxPk : List Nat
  boxSk : List Nat

/-- Embedding of the `Keys` wrapper: it owns a `Keypair` and serves both
halves in Base64 through getters. -/
structure Keys where
  keyPair : Keypair

/-- Getter `Keys.publicKey`: `Utils.toBase64(this.keyPair.boxPk)`. -/
def Keys.publicKey (k : Keys) : String := toBase64 k.keyPair.boxPk

/-- Getter `Keys.privateKey`: `Utils.toBase64(this.keyPair.boxSk)`. -/
def Keys.privateKey (k : Keys) : String := toBase64 k.keyPair.boxSk

/-! ### NaCl driver interface
`KeyRing` and `Mailbox` are written against the `NaClDriver` interface.
The driver is modelled as a record of pure functions: `h2fn` abstracts
`h2` (instantiated with the real double-SHA-256 where needed),
`scalarmultBase` abstracts the Curve25519 base-point multiplication that
the external `tweetnacl` library performs inside
`box.keyPair.fromSecretKey`, and `randomKeypair` is the oracle behind
`crypto_box_keypair`. -/

/-- Driver model for the keyring-level operations. -/
structure NaClDriverModel where
  h2fn : List Nat → List Nat
  scalarmultBase : List Nat → List Nat
  randomKeypair : Keypair

/-- Embedding of `crypto_box_keypair_from_raw_sk`
(`tweetnacl`'s `box.keyPair.fromSecretKey`): the secret half is the input
itself, the public half is derived from it. -/
def crypto_box_keypair_from_raw_sk (drv : NaClDriverModel) (key : List Nat) : Keypair :=
  { boxPk := drv.scalarmultBase key, boxSk := key }

/-! ### `keyring.ts`: the `KeyRing` class
The persisted state is modelled one level above `CryptoStorage`: a write
journal of `(tag, stored value)` pairs, appended to by every
`storage.save` call.  This makes "no storage write happened" directly
visible as journal equality. -/

/-- Guest record `{pk, hpk}` (interface `KeyRecord` in `keyring.ts`). -/
structure KeyRecordGlow where
  pk : String
  hpk : String
deriving BEq

/-- A value handed to `CryptoStorage.save` by the keyring. -/
inductive StoredVal where
  | keys : Keys → StoredVal
  | registry : List (String × KeyRecordGlow) → StoredVal

/-- In-memory and persisted state of a `KeyRing`. -/
structure KeyRingState where
  commKey : Keys
  guestKeys : List (String × KeyRecordGlow)
  storageLog : List (String × StoredVal)

/-- The reserved backup slot for the comm key (`commKeyTag`). -/
def commKeyTag : String := "__::commKey::__"

/-- `CryptoStorage.save` as seen by the keyring: append to the journal. -/
def storageSave (st : KeyRingState) (tag : String) (v : StoredVal) : KeyRingState :=
  { st with storageLog := st.storageLog ++ [(tag, v)] }

/-- Embedding of `KeyRing.saveGuests`. -/
def saveGuests (st : KeyRingState) : KeyRingState :=
  storageSave st "guest_registry" (.registry st.guestKeys)

/-- Embedding of `KeyRing.new` for a fresh identity: the storage holds no
comm key, so `getCommKey` draws a fresh keypair from the driver, the comm
key is persisted, and the guest registry is empty. -/
def keyRingNew (drv : NaClDriverModel) : KeyRingState :=
  let commKey : Keys := ⟨drv.randomKeypair⟩
  storageSave { commKey := commKey, guestKeys := [], storageLog := [] } "comm_key" (.keys commKey)

/-- Embedding of `KeyRing.getPubCommKey`. -/
def getPubCommKey (st : KeyRingState) : String := st.commKey.publicKey

/-- Embedding of `KeyRing.getTagByHpk`: first guest whose `hpk` matches. -/
def getTagByHpk (st : KeyRingState) (hpk : String) : Option String :=
  (st.guestKeys.find? (fun p => p.2.hpk == hpk)).map (fun p => p.1)

/-- Embedding of `KeyRing.getGuestKey`. -/
def getGuestKey (st : KeyRingState) (guestTag : String) : Option String :=
  (jsMapGet st.guestKeys guestTag).map (fun r => r.pk)

/-- Embedding of `KeyRing.setCommFromSecKey`: rebuild the comm key from
the raw secret and persist it. -/
def setCommFromSecKey (drv : NaClDriverModel) (st : KeyRingState) (rawSecretKey : List Nat) :
    KeyRingState :=
  let commKey : Keys := ⟨crypto_box_keypair_from_raw_sk drv rawSecretKey⟩
  storageSave { st with commKey := commKey } "comm_key" (.keys commKey)

/-- Embedding of `KeyRing.addGuest`: hash the decoded public key, store
`{pk, hpk}` under the tag, persist the registry, return the Base64 hash.
The `error` case is the `atob` exception on a malformed `publicKey`. -/
def addGuest (drv : NaClDriverModel) (st : KeyRingState) (guestTag publicKey : String) :
    Except String (String × KeyRingState) :=
  match fromBase64 publicKey with
  | none => .error "atob: malformed base64"
  | some pkBytes =>
    let b64_h2 := toBase64 (drv.h2fn pkBytes)
    let st := { st with guestKeys := jsMapSet st.guestKeys guestTag ⟨publicKey, b64_h2⟩ }
    .ok (b64_h2, saveGuests st)

/-- Embedding of `KeyRing.removeGuest`: delete and persist only when the
tag is present; resolve to `true` either way. -/
def removeGuest (st : KeyRingState) (guestTag : String) : Bool × KeyRingState :=
  if jsMapHas st.guestKeys guestTag then
    (true, saveGuests { st with guestKeys := jsMapDelete st.guestKeys guestTag })
  else
    (true, st)

/-- Embedding of `KeyRing.backup` as the JavaScript object it serializes:
the comm-key slot first, then each guest's `pk` under its tag (entries
with a falsy tag are skipped by `if (key && value)`).  `JSON.stringify`
of such string-valued objects is injective and order-preserving, so
backup strings are compared as these association lists. -/
def backup (st : KeyRingState) : List (String × String) :=
  st.guestKeys.foldl
    (fun acc p => if p.1 ≠ "" then jsMapSet acc p.1 p.2.pk else acc)
    [(commKeyTag, st.commKey.privateKey)]

/-- Embedding of `KeyRing.fromBackup` for a fresh identity: parse the
backup object, rebuild the comm key from the embedded secret, then
re-add every entry other than the comm-key slot as a guest. -/
def fromBackup (drv : NaClDriverModel) (backupObj : List (String × String)) :
    Except String KeyRingState :=
  match jsMapGet backupObj commKeyTag with
  | none => .error "atob: undefined comm key slot"
  | some privB64 =>
    match fromBase64 privB64 with
    | none => .error "atob: malformed base64"
    | some secretKey =>
      let st := setCommFromSecKey drv (keyRingNew drv) secretKey
      backupObj.foldlM
        (fun st p =>
          if p.1 ≠ commKeyTag then (addGuest drv st p.1 p.2).map (fun r => r.2)
          else pure st)
        st

/-! ### `mailbox.ts`: message decoding and the download parser
`Mailbox` decodes with `crypto_box_open` through the driver; the cipher
primitive itself (external `tweetnacl`) and the JavaScript builtins
behind `decode_utf8` / `JSON.parse` are parameters of the model. -/

/-- Cryptographic interface used by the mailbox-level embeddings. -/
structure MailboxCrypto where
  box_open : List Nat → List Nat → List Nat → List Nat → Option (List Nat)
  decode_utf8 : List Nat → Except String String
  jsonParse : String → Except String JsValue

/-- In-memory state of a `Mailbox`: its keyring and per-relay session
keys. -/
structure MailboxState where
  keyRing : KeyRingState
  sessionKeys : List (String × Keys)

/-- Embedding of `Mailbox.rawDecodeMessage`: `crypto_box_open`, then
UTF-8 decode and `JSON.parse` on success; `null` (`Option.none`) when the
box fails to open. -/
def rawDecodeMessage (env : MailboxCrypto) (nonce ctext pkFrom skTo : List Nat) :
    Except String (Option JsValue) :=
  match env.box_open ctext nonce pkFrom skTo with
  | some data => do
    let utf8 ← env.decode_utf8 data
    let v ← env.jsonParse utf8
    pure (some v)
  | none => pure none

/-- Embedding of `Mailbox.decodeMessage`: resolve the guest key, pick the
comm secret key (or the session key when `session` is set and one
exists), Base64-decode all four inputs and call `rawDecodeMessage`. -/
def decodeMessage (env : MailboxCrypto) (st : MailboxState)
    (guest nonce ctext : String) (session : Bool) :
    Except String (Option JsValue) :=
  match getGuestKey st.keyRing guest with
  | none => .error "[Mailbox] decodeMessage: unknown guest"
  | some guestPk =>
    let privateKey := st.keyRing.commKey.privateKey
    let privateKey :=
      match jsMapGet st.sessionKeys guest with
      | some sessionKey => if session then sessionKey.privateKey else privateKey
      | none => privateKey
    match fromBase64 nonce, fromBase64 ctext, fromBase64 guestPk, fromBase64 privateKey with
    | some n, some c, some p, some s => rawDecodeMessage env n c p s
    | _, _, _, _ => .error "atob: malformed base64"

/-- A raw record of the `download` response (`ZaxRawMessage`). -/
structure ZaxRawMessage where
  data : String
  time : Int
  source : String
  nonce : String
  kind : String

/-- Parsed download results (`ZaxParsedMessage` union). -/
inductive ZaxParsedMessage where
  | textMessage : JsValue → Int → String → String → ZaxParsedMessage
  | fileMessage : Option JsValue → Int → String → String → String → ZaxParsedMessage
  | plainMessage : String → Int → String → String → ZaxParsedMessage
deriving BEq

/-- Embedding of `Mailbox.parsePlainMessage`. -/
def parsePlainMessage (message : ZaxRawMessage) : ZaxParsedMessage :=
  .plainMessage message.data message.time message.source message.nonce

/-- Embedding of `Mailbox.parseTextMessage`: decode; a `null` or falsy
decode result is replaced by the raw `message.data`. -/
def parseTextMessage (env : MailboxCrypto) (st : MailboxState)
    (message : ZaxRawMessage) (senderTag : String) :
    Except String ZaxParsedMessage := do
  let d ← decodeMessage env st senderTag message.nonce message.data false
  let dataVal : JsValue :=
    match d with
    | none => .jstr message.data
    | some v => if jsFalsy v then .jstr message.data else v
  pure (.textMessage dataVal message.time senderTag message.nonce)

/-- Embedding of `Mailbox.parseFileMessage`: `JSON.parse` the record
data, destructure `{nonce, ctext, uploadID}` and decrypt the metadata. -/
def parseFileMessage (env : MailboxCrypto) (st : MailboxState)
    (message : ZaxRawMessage) (senderTag : String) :
    Except String ZaxParsedMessage := do
  let parsed ← env.jsonParse message.data
  match parsed with
  | .jobj fields =>
    match jsMapGet fields "nonce", jsMapGet fields "ctext", jsMapGet fields "uploadID" with
    | some (.jstr nonce), some (.jstr ctext), some (.jstr uploadID) => do
      let d ← decodeMessage env st senderTag nonce ctext false
      pure (.fileMessage d message.time senderTag uploadID nonce)
    | _, _, _ => .error "destructuring a malformed file message"
  | _ => .error "destructuring a malformed file message"

/-- Embedding of the per-record dispatch inside `Mailbox.download`. -/
def downloadParseRecord (env : MailboxCrypto) (st : MailboxState)
    (message : ZaxRawMessage) : Except String ZaxParsedMessage :=
  match getTagByHpk st.keyRing message.source with
  | none => .ok (parsePlainMessage message)
  | some senderTag =>
    if message.kind == "message" then parseTextMessage env st message senderTag
    else if message.kind == "file" then parseFileMessage env st message senderTag
    else .error "[Mailbox] download - Unknown message type"

/-- Embedding of the parsing loop of `Mailbox.download`. -/
def downloadParse (env : MailboxCrypto) (st : MailboxState)
    (messages : List ZaxRawMessage) : Except String (List ZaxParsedMessage) :=
  messages.mapM (downloadParseRecord env st)

/-! ### `mailbox.ts`: `uploadFileChunk`
The method symmetrically encrypts the chunk and hands the parameter
object `{uploadID, part, last_chunk, nonce}` plus the raw ciphertext to
`runRelayCommand`.  The embedding produces exactly that relay request;
the body contains no validation of `part` against `totalParts`. -/

/-- The `box`/`secretbox` envelope (`EncryptedMessage`). -/
structure EncryptedMessage where
  nonce : String
  ctext : String

/-- Environment for the symmetric encryption path: the secretbox
primitive plus the randomness and clock feeding `makeNonce`. -/
structure SymCryptoEnv where
  secretbox : List Nat → List Nat → List Nat → List Nat
  randomNonce : List Nat
  nowMs : Nat

/-- Embedding of `Mailbox.encodeMessageSymmetric`. -/
def encodeMessageSymmetric (env : SymCryptoEnv) (message secretKey : List Nat) :
    Except String EncryptedMessage := do
  let nonce ← makeNonce env.randomNonce env.nowMs none
  pure ⟨toBase64 nonce, toBase64 (env.secretbox message nonce secretKey)⟩

/-- The relay request built by `Mailbox.uploadFileChunk`: the encrypted
command parameters and the separate symmetric ciphertext line. -/
structure UploadFileChunkCmd where
  uploadID : String
  part : Int
  last_chunk : Bool
  nonce : String
  ctext : String

/-- Embedding of `Mailbox.uploadFileChunk` up to the relay request it
sends (`mailbox.ts` lines 879-890): encrypt the chunk, then pass
`{uploadID, part, last_chunk: totalParts - 1 === part, nonce}` and the
ciphertext to `runRelayCommand`.  No part-range validation occurs. -/
def uploadFileChunk (env : SymCryptoEnv) (uploadID : String) (chunk : List Nat)
    (part totalParts : Int) (skey : List Nat) : Except String UploadFileChunkCmd := do
  let encodedChunk ← encodeMessageSymmetric env chunk skey
  pure
    { uploadID := uploadID
      part := part
      last_chunk := (totalParts - 1 == part)
      nonce := encodedChunk.nonce
      ctext := encodedChunk.ctext }

/-! ### `crypto-storage.ts`: `CryptoStorage.save` and `CryptoStorage.get`
The backing `StorageDriver` is a string-to-string store modelled as an
association list; `jsMapGet` returning `none` is a missing row. -/

/-- Environment for `CryptoStorage`: the secretbox primitives and the
JavaScript builtins used for serialization. -/
structure StorageCryptoEnv where
  secretbox : List Nat → List Nat → List Nat → List Nat
  secretbox_open : List Nat → List Nat → List Nat → Option (List Nat)
  encode_utf8 : String → Except String (List Nat)
  decode_utf8 : List Nat → Except String String
  jsonParse : String → Except String JsValue
  jsonStringify : JsValue → String
  randomNonce : List Nat

/-- Identity prefix computed in the `CryptoStorage` constructor:
`.${id}.v2.stor.vlt12` for a truthy id, else `.v2.stor.vlt12`. -/
def storageIdOf (id : String) : String :=
  if id ≠ "" then "." ++ id ++ ".v2.stor.vlt12" else ".v2.stor.vlt12"

/-- `CryptoStorage.addPrefix`. -/
def prefixedTag (storageId tag : String) : String := tag ++ storageId

/-- `CryptoStorage.addNonceTag`: `addPrefix("__nc." + tag)`. -/
def nonceTagOf (storageId tag : String) : String :=
  prefixedTag storageId ("__nc" ++ "." ++ tag)

/-- Embedding of `CryptoStorage.save`: serialize, encrypt under the
storage key with a fresh nonce, write the ciphertext row and the nonce
row. -/
def csSave (env : StorageCryptoEnv) (storageKey : List Nat) (storageId : String)
    (driver : List (String × String)) (tag : String) (data : JsValue) :
    Except String (List (String × String)) := do
  let input := env.jsonStringify data
  let encoded ← env.encode_utf8 input
  let nonce := env.randomNonce
  let cipherText := env.secretbox encoded nonce storageKey
  let driver := jsMapSet driver (prefixedTag storageId tag) (toBase64 cipherText)
  let driver := jsMapSet driver (nonceTagOf storageId tag) (toBase64 nonce)
  pure driver

/-- Embedding of `CryptoStorage.get`: `null` when the ciphertext or nonce
row is falsy, a thrown decryption error when `crypto_secretbox_open`
fails, the parsed value otherwise.  The JavaScript `null` return and a
decrypted JSON `null` are the same value, so both are `.ok .jnull`. -/
def csGet (env : StorageCryptoEnv) (storageKey : List Nat) (storageId : String)
    (driver : List (String × String)) (tag : String) : Except String JsValue :=
  let data := jsMapGet driver (prefixedTag storageId tag)
  let nonce := jsMapGet driver (nonceTagOf storageId tag)
  if jsFalsyStr data || jsFalsyStr nonce then .ok .jnull
  else
    match data, nonce with
    | some d, some n =>
      match fromBase64 d, fromBase64 n with
      | some dataBinary, some nonceBinary =>
        match env.secretbox_open dataBinary nonceBinary storageKey with
        | some source => do
          let decoded ← env.decode_utf8 source
          env.jsonParse decoded
        | none => .error "[CryptoStorage] crypto_secretbox_open: decryption error"
      | _, _ => .error "atob: malformed base64"
    | _, _ => .ok .jnull

/-! ## Theorems

General lemmas about the embedded primitives, followed by one theorem per
specification claim (with witnesses and counterexamples). -/

theorem arrayZeroBitsLoop_oob (d : Nat) (a : List Nat) :
    ∀ fuel i n, a.length ≤ i → n ≠ 0 → arrayZeroBitsLoop d a fuel i n = false := by
  intro fuel
  induction fuel with
  | zero => intro i n _ _; rfl
  | succ fuel ih =>
    intro i n hi hn
    have hnone : a[i]? = none := List.getElem?_eq_none hi
    simp only [arrayZeroBitsLoop, hnone, jsGTzero, firstZeroBits]
    by_cases hc : 8 * i ≤ 8 + d
    · simp only [if_pos hc, if_neg hn]
      by_cases h8 : n > 8
      · simpa [h8] using ih (i + 1) (n - 8) (by omega) (by omega)
      · simp [h8]
    · simp [hc]

theorem arrayZeroBitsLoop_sound (d : Nat) (a : List Nat)
    (hbytes : ∀ b ∈ a, b < 256) :
    ∀ fuel n i, n + 8 * i = d → (∀ j, j < i → a.getD j 1 = 0) →
      arrayZeroBitsLoop d a fuel i n = true → arrayZeroBitsSpec d a = true := by
  intro fuel
  induction fuel with
  | zero => intro n i _ _ h; simp [arrayZeroBitsLoop] at h
  | succ fuel ih =>
    intro n i hni hz h
    simp only [arrayZeroBitsLoop] at h
    split at h
    case isFalse => exact absurd h (by simp)
    case isTrue hcond =>
    by_cases hn0 : n = 0
    · -- `n = 0`: the difficulty is exactly the `i` zero bytes seen so far
      subst hn0
      have hdi : d / 8 = i := by omega
      have hdm : d % 8 = 0 := by omega
      simp only [arrayZeroBitsSpec, hdi, hdm, pow_zero, Nat.mod_one,
        Bool.and_eq_true, List.all_eq_true, beq_iff_eq]
      exact ⟨fun j hj => by simp only [List.mem_range] at hj; exact hz j hj, by simp⟩
    · simp only [if_neg hn0] at h
      by_cases hn8 : n > 8
      · -- full-byte case: the byte must be zero and the loop recurses
        simp only [if_pos hn8] at h
        rcases hbyte : a[i]? with _ | b
        · -- out of range: the remaining loop can only return false
          rw [hbyte] at h
          simp only [jsGTzero] at h
          rw [arrayZeroBitsLoop_oob d a fuel (i + 1) (n - 8)
            (by have := List.getElem?_eq_none_iff.mp hbyte; omega) (by omega)] at h
          exact absurd h (by simp)
        · rw [hbyte] at h
          have hb0 : b = 0 := by
            by_contra hb
            simp [jsGTzero, Nat.pos_of_ne_zero hb] at h
          split at h
          · exact absurd h (by simp)
          · refine ih (n - 8) (i + 1) (by omega) ?_ h
            intro j hj
            rcases Nat.lt_or_ge j i with hji | hji
            · exact hz j hji
            · have : j = i := by omega
              subst this
              simp [List.getD_eq_getElem?_getD, hbyte, hb0]
      · -- final partial byte: `1 ≤ n ≤ 8`
        simp only [if_neg hn8] at h
        rcases hbyte : a[i]? with _ | b
        · rw [hbyte] at h; simp [firstZeroBits] at h
        · rw [hbyte] at h
          simp only [firstZeroBits, beq_iff_eq, Nat.shiftRight_eq_div_pow,
            Nat.shiftLeft_eq] at h
          have hmod : b % 2 ^ n = 0 := by
            conv_lhs => rw [h]
            exact Nat.mul_mod_left _ _
          have hblt : b < 256 := hbytes b (List.getElem?_mem hbyte)
          have hgetD : a.getD i 1 = b := by
            simp [List.getD_eq_getElem?_getD, hbyte]
          by_cases hn8e : n = 8
          · -- the last byte is a full byte: difficulty `8 * (i + 1)`
            subst hn8e
            have hdi : d / 8 = i + 1 := by omega
            have hdm : d % 8 = 0 := by omega
            have hb0 : b = 0 := by
              have hbm : b % 256 = b := Nat.mod_eq_of_lt hblt
              have : (2 : Nat) ^ 8 = 256 := by norm_num
              rw [this, hbm] at hmod
              exact hmod
            simp only [arrayZeroBitsSpec, hdi, hdm, pow_zero, Nat.mod_one,
              Bool.and_eq_true, List.all_eq_true, beq_iff_eq]
            refine ⟨fun j hj => ?_, by simp⟩
            simp only [List.mem_range] at hj
            rcases Nat.lt_or_ge j i with hji | hji
            · exact hz j hji
            · have : j = i := by omega
              subst this
              rw [hgetD, hb0]
          · -- `1 ≤ n ≤ 7`
            have hdi : d / 8 = i := by omega
            have hdm : d % 8 = n := by omega
            simp only [arrayZeroBitsSpec, hdi, hdm, Bool.and_eq_true,
              List.all_eq_true, beq_iff_eq]
            refine ⟨fun j hj => ?_, ?_⟩
            · simp only [List.mem_range] at hj
              exact hz j hj
            · rw [hgetD, hmod]

theorem ensureNonceDifficulty_mem (d : Nat) (h2fn : List Nat → List Nat)
    (handshake : List Nat) :
    ∀ cands n, ensureNonceDifficulty d h2fn handshake cands = some n →
      arrayZeroBits d (h2fn (handshake ++ n)) = true := by
  intro cands
  induction cands with
  | nil => intro n h; simp [ensureNonceDifficulty] at h
  | cons c rest ih =>
    intro n h
    simp only [ensureNonceDifficulty] at h
    split at h
    case isTrue hc => cases h; exact hc
    case isFalse => exact ih n h

/-! ### Base64 round trip -/

theorem b64Val_b64Char : ∀ n < 64, b64ValOf (b64CharOf n) = some n := by decide

theorem b64Char_ne_eq : ∀ n < 64, ¬(b64CharOf n = '=') := by decide

theorem b64_roundtrip : ∀ (bytes : List Nat), (∀ b ∈ bytes, b < 256) →
    b64DecodeChars (b64EncodeChars bytes) = some bytes
  | [], _ => rfl
  | [a], h => by
    have ha : a < 256 := h a (by simp)
    have h1 := b64Val_b64Char (a / 4) (by omega)
    have h2 := b64Val_b64Char (a % 4 * 16) (by omega)
    simp [b64EncodeChars, b64DecodeChars, h1, h2]
    omega
  | [a, b], h => by
    have ha : a < 256 := h a (by simp)
    have hb : b < 256 := h b (by simp)
    have h1 := b64Val_b64Char (a / 4) (by omega)
    have h2 := b64Val_b64Char (a % 4 * 16 + b / 16) (by omega)
    have h3 := b64Val_b64Char (b % 16 * 4) (by omega)
    have hne3 := b64Char_ne_eq (b % 16 * 4) (by omega)
    simp [b64EncodeChars, b64DecodeChars, h1, h2, h3, hne3]
    omega
  | [a, b, c], h => by
    have ha : a < 256 := h a (by simp)
    have hb : b < 256 := h b (by simp)
    have hc : c < 256 := h c (by simp)
    have h1 := b64Val_b64Char (a / 4) (by omega)
    have h2 := b64Val_b64Char (a % 4 * 16 + b / 16) (by omega)
    have h3 := b64Val_b64Char (b % 16 * 4 + c / 64) (by omega)
    have h4 := b64Val_b64Char (c % 64) (by omega)
    have hne3 := b64Char_ne_eq (b % 16 * 4 + c / 64) (by omega)
    have hne4 := b64Char_ne_eq (c % 64) (by omega)
    simp [b64EncodeChars, b64DecodeChars, h1, h2, h3, h4, hne3, hne4]
    omega
  | a :: b :: c :: d1 :: rest, h => by
    have ha : a < 256 := h a (by simp)
    have hb : b < 256 := h b (by simp)
    have hc : c < 256 := h c (by simp)
    have ih := b64_roundtrip (d1 :: rest) (fun x hx => h x (by simp at hx ⊢; tauto))
    have h1 := b64Val_b64Char (a / 4) (by omega)
    have h2 := b64Val_b64Char (a % 4 * 16 + b / 16) (by omega)
    have h3 := b64Val_b64Char (b % 16 * 4 + c / 64) (by omega)
    have h4 := b64Val_b64Char (c % 64) (by omega)
    have hne3 := b64Char_ne_eq (b % 16 * 4 + c / 64) (by omega)
    have hne4 := b64Char_ne_eq (c % 64) (by omega)
    show b64DecodeChars (_ :: _ :: _ :: _ :: b64EncodeChars (d1 :: rest)) = _
    simp [b64DecodeChars, h1, h2, h3, h4, hne3, hne4, ih]
    omega

theorem fromBase64_toBase64 (bytes : List Nat) (h : ∀ b ∈ bytes, b < 256) :
    fromBase64 (toBase64 bytes) = some bytes :=
  b64_roundtrip bytes h

/-! ### `itoa` and nonce-layout lemmas -/

theorem foldl_base_acc (B : Nat) : ∀ (l : List Nat) (acc : Nat),
    l.foldl (fun a b => B * a + b) acc =
      acc * B ^ l.length + l.foldl (fun a b => B * a + b) 0
  | [], acc => by simp
  | x :: l, acc => by
    simp only [List.foldl_cons, List.length_cons]
    rw [foldl_base_acc B l (B * acc + x), foldl_base_acc B l (B * 0 + x)]
    ring

theorem hexDigitsRec_val : ∀ fuel n, n ≤ fuel → hexFold (hexDigitsRec fuel n) = n := by
  intro fuel
  induction fuel with
  | zero =>
    intro n h
    have hn : n = 0 := by omega
    subst hn
    rfl
  | succ fuel ih =>
    intro n h
    match n with
    | 0 => rfl
    | m + 1 =>
      have hlt : (m + 1) / 16 < m + 1 := by omega
      have hle : (m + 1) / 16 ≤ fuel := by omega
      have hv := ih ((m + 1) / 16) hle
      simp only [hexDigitsRec, hexFold, List.foldl_append] at hv ⊢
      simp [hv]
      omega

theorem hexDigitsRec_length : ∀ fuel n L, n ≤ fuel → n < 16 ^ L →
    (hexDigitsRec fuel n).length ≤ L := by
  intro fuel
  induction fuel with
  | zero =>
    intro n L h _
    have hn : n = 0 := by omega
    subst hn
    simp [hexDigitsRec]
  | succ fuel ih =>
    intro n L h hlt
    match n with
    | 0 => simp [hexDigitsRec]
    | m + 1 =>
      have hL : 1 ≤ L := by
        by_contra hc
        have : L = 0 := by omega
        subst this
        simp at hlt
      have hdiv : (m + 1) / 16 < 16 ^ (L - 1) := by
        rw [Nat.div_lt_iff_lt_mul (by norm_num)]
        calc m + 1 < 16 ^ L := hlt
          _ = 16 ^ (L - 1) * 16 := by
            rw [← Nat.pow_succ]
            congr 1
            omega
      have := ih ((m + 1) / 16) (L - 1) (by omega) hdiv
      simp only [hexDigitsRec, List.length_append, List.length_cons, List.length_nil]
      omega

theorem pairHexBytes_length : ∀ ds : List Nat, (pairHexBytes ds).length = ds.length / 2
  | [] => rfl
  | [_] => by simp [pairHexBytes]
  | _ :: _ :: rest => by
    simp [pairHexBytes, pairHexBytes_length rest]
    omega

theorem pairHexBytes_val : ∀ ds : List Nat, ds.length % 2 = 0 →
    beDecode (pairHexBytes ds) = hexFold ds
  | [], _ => rfl
  | [_], h => by simp at h
  | a :: b :: rest, h => by
    have heven : rest.length % 2 = 0 := by
      simp only [List.length_cons] at h
      omega
    have ih := pairHexBytes_val rest heven
    have hlen := pairHexBytes_length rest
    have hpow : (256 : Nat) ^ (rest.length / 2) = 16 ^ rest.length := by
      have h2 : 2 * (rest.length / 2) = rest.length := by omega
      calc (256 : Nat) ^ (rest.length / 2) = (16 ^ 2) ^ (rest.length / 2) := by norm_num
        _ = 16 ^ (2 * (rest.length / 2)) := by rw [← pow_mul]
        _ = 16 ^ rest.length := by rw [h2]
    show beDecode ((16 * a + b) :: pairHexBytes rest) = hexFold (a :: b :: rest)
    simp only [beDecode, hexFold, List.foldl_cons] at ih ⊢
    rw [foldl_base_acc 256 (pairHexBytes rest) _, foldl_base_acc 16 rest _]
    rw [ih, hlen, hpow]
    ring_nf

theorem jsHexString_val (n : Nat) : hexFold (jsHexString n) = n := by
  unfold jsHexString
  by_cases h : n = 0
  · simp [h, hexFold]
  · rw [if_neg h]
    exact hexDigitsRec_val n n le_rfl

theorem itoa_val (n : Nat) : beDecode (itoa n) = n := by
  simp only [itoa]
  by_cases hpar : (jsHexString n).length % 2 = 1
  · rw [if_pos hpar, pairHexBytes_val _ (by simp; omega)]
    have : hexFold (0 :: jsHexString n) = hexFold (jsHexString n) := by
      simp [hexFold]
    rw [this, jsHexString_val]
  · rw [if_neg hpar, pairHexBytes_val _ (by omega), jsHexString_val]

theorem jsHexString_length (n L : Nat) (hL : 1 ≤ L) (h : n < 16 ^ L) :
    (jsHexString n).length ≤ L := by
  unfold jsHexString
  by_cases h0 : n = 0
  · simp [h0]
    omega
  · rw [if_neg h0]
    exact hexDigitsRec_length n n L le_rfl h

theorem itoa_length (n L : Nat) (hL : 1 ≤ L) (h : n < 2 ^ (8 * L)) :
    (itoa n).length ≤ L := by
  have hpow : (2 : Nat) ^ (8 * L) = 16 ^ (2 * L) := by
    rw [show 8 * L = 4 * (2 * L) by ring, pow_mul]
    norm_num
  have hhex : (jsHexString n).length ≤ 2 * L :=
    jsHexString_length n (2 * L) (by omega) (by rw [← hpow]; exact h)
  simp only [itoa]
  by_cases hpar : (jsHexString n).length % 2 = 1
  · rw [if_pos hpar, pairHexBytes_length]
    simp only [List.length_cons]
    omega
  · rw [if_neg hpar, pairHexBytes_length]
    omega

theorem beDecode_zeros_append (k : Nat) (l : List Nat) :
    beDecode (List.replicate k 0 ++ l) = beDecode l := by
  have hz : ∀ j, (List.replicate j 0).foldl (fun a b => 256 * a + b) 0 = 0 := by
    intro j
    induction j with
    | zero => rfl
    | succ j ih => simpa [List.replicate_succ] using ih
  simp only [beDecode, List.foldl_append, hz]

theorem typedArraySet_exact (l₁ l₂ l₃ src : List Nat) (h : src.length = l₂.length) :
    typedArraySet (l₁ ++ l₂ ++ l₃) src l₁.length = some (l₁ ++ src ++ l₃) := by
  unfold typedArraySet
  rw [if_pos (by simp [h])]
  congr 1
  have htake : (l₁ ++ l₂ ++ l₃).take l₁.length = l₁ := by
    rw [List.append_assoc, List.take_left]
  have hdrop : (l₁ ++ l₂ ++ l₃).drop (l₁.length + src.length) = l₃ := by
    have : l₁.length + src.length = (l₁ ++ l₂).length := by simp [h]
    rw [this, List.drop_left]
  rw [htake, hdrop]

theorem typedArraySet_at (l₁ rest src : List Nat) (off : Nat) (hoff : off = l₁.length)
    (hsrc : src.length ≤ rest.length) :
    typedArraySet (l₁ ++ rest) src off = some (l₁ ++ src ++ rest.drop src.length) := by
  unfold typedArraySet
  rw [if_pos (by simp [hoff]; omega)]
  subst hoff
  rw [List.take_left]
  have hdrop : (l₁ ++ rest).drop (l₁.length + src.length) = rest.drop src.length := by
    rw [List.drop_append]
  rw [hdrop, List.append_assoc]

theorem makeNonce_eq (rand : List Nat) (nowMs k : Nat)
    (hlen : rand.length = 24) (ht : nowMs / 1000 < 2 ^ 64)
    (hk0 : k ≠ 0) (hk : k < 2 ^ 32) :
    makeNonce rand nowMs (some k) =
      .ok ((List.replicate (8 - (itoa (nowMs / 1000)).length) 0 ++ itoa (nowMs / 1000)) ++
        ((List.replicate (4 - (itoa k).length) 0 ++ itoa k) ++ rand.drop 12)) := by
  have hla : (itoa (nowMs / 1000)).length ≤ 8 :=
    itoa_length _ 8 (by norm_num) (by norm_num; exact ht)
  have hlk : (itoa k).length ≤ 4 :=
    itoa_length k 4 (by norm_num) (by norm_num; exact hk)
  have htr : jsTruthyNum (some k) = true := by simp [jsTruthyNum, hk0]
  have hfill : fillZero rand (8 + 4) = List.replicate 12 0 ++ rand.drop 12 := by
    simp [fillZero, hlen]
  have hsplit12 : List.replicate 12 (0 : Nat) =
      List.replicate (8 - (itoa (nowMs / 1000)).length) 0 ++
        List.replicate ((itoa (nowMs / 1000)).length + 4) 0 := by
    rw [← List.replicate_add]
    congr 1
    omega
  have hset1 : typedArraySetI (List.replicate 12 0 ++ rand.drop 12) (itoa (nowMs / 1000))
      (8 - ((itoa (nowMs / 1000)).length : Int)) =
      some ((List.replicate (8 - (itoa (nowMs / 1000)).length) 0 ++ itoa (nowMs / 1000)) ++
        (List.replicate 4 0 ++ rand.drop 12)) := by
    unfold typedArraySetI
    rw [if_neg (by omega)]
    have htn : (8 - ((itoa (nowMs / 1000)).length : Int)).toNat =
        8 - (itoa (nowMs / 1000)).length := by omega
    rw [htn, hsplit12, List.append_assoc]
    rw [typedArraySet_at _ _ _ _ (by simp) (by simp [List.length_append, hlen]; omega)]
    congr 2
    rw [List.drop_append_of_le_length (by simp), List.drop_replicate]
    congr 2
    omega
  have hset2 : typedArraySetI ((List.replicate (8 - (itoa (nowMs / 1000)).length) 0 ++
        itoa (nowMs / 1000)) ++ (List.replicate 4 0 ++ rand.drop 12)) (itoa k)
      (12 - ((itoa k).length : Int)) =
      some ((List.replicate (8 - (itoa (nowMs / 1000)).length) 0 ++ itoa (nowMs / 1000)) ++
        ((List.replicate (4 - (itoa k).length) 0 ++ itoa k) ++ rand.drop 12)) := by
    unfold typedArraySetI
    rw [if_neg (by omega)]
    have htn : (12 - ((itoa k).length : Int)).toNat = 12 - (itoa k).length := by omega
    rw [htn]
    unfold typedArraySet
    rw [if_pos (by simp [hlen]; omega)]
    have hA : (List.replicate (8 - (itoa (nowMs / 1000)).length) 0 ++
        itoa (nowMs / 1000)).length = 8 := by
      simp
      omega
    have htake : List.take (12 - (itoa k).length)
        ((List.replicate (8 - (itoa (nowMs / 1000)).length) 0 ++ itoa (nowMs / 1000)) ++
          (List.replicate 4 0 ++ rand.drop 12)) =
        (List.replicate (8 - (itoa (nowMs / 1000)).length) 0 ++ itoa (nowMs / 1000)) ++
          List.replicate (4 - (itoa k).length) 0 := by
      have h12 : 12 - (itoa k).length =
          (List.replicate (8 - (itoa (nowMs / 1000)).length) 0 ++
            itoa (nowMs / 1000)).length + (4 - (itoa k).length) := by
        rw [hA]
        omega
      rw [h12, List.take_append]
      congr 1
      rw [List.take_append_of_le_length (by simp), List.take_replicate]
      congr 1
      omega
    have hdrop : List.drop (12 - (itoa k).length + (itoa k).length)
        ((List.replicate (8 - (itoa (nowMs / 1000)).length) 0 ++ itoa (nowMs / 1000)) ++
          (List.replicate 4 0 ++ rand.drop 12)) = rand.drop 12 := by
      have h12 : 12 - (itoa k).length + (itoa k).length =
          (List.replicate (8 - (itoa (nowMs / 1000)).length) 0 ++
            itoa (nowMs / 1000)).length + 4 := by
        rw [hA]
        omega
      rw [h12, List.drop_append]
      rw [List.drop_append_of_le_length (by simp), List.drop_replicate]
      simp
    rw [htake, hdrop]
    simp [List.append_assoc]
  simp only [makeNonce]
  rw [if_neg (by simp [hlen, crypto_box_NONCEBYTES])]
  rw [htr]
  simp only [if_true, hfill, hset1, htr, Option.getD_some]
  rw [hset2]

theorem makeNonce_none_eq (rand : List Nat) (nowMs : Nat)
    (hlen : rand.length = 24) (ht : nowMs / 1000 < 2 ^ 64) :
    makeNonce rand nowMs none =
      .ok ((List.replicate (8 - (itoa (nowMs / 1000)).length) 0 ++ itoa (nowMs / 1000)) ++
        rand.drop 8) := by
  have hla : (itoa (nowMs / 1000)).length ≤ 8 :=
    itoa_length _ 8 (by norm_num) (by norm_num; exact ht)
  have hfill : fillZero rand 8 = List.replicate 8 0 ++ rand.drop 8 := by
    simp [fillZero, hlen]
  have hsplit8 : List.replicate 8 (0 : Nat) =
      List.replicate (8 - (itoa (nowMs / 1000)).length) 0 ++
        List.replicate ((itoa (nowMs / 1000)).length) 0 := by
    rw [← List.replicate_add]
    congr 1
    omega
  have hset1 : typedArraySetI (List.replicate 8 0 ++ rand.drop 8) (itoa (nowMs / 1000))
      (8 - ((itoa (nowMs / 1000)).length : Int)) =
      some ((List.replicate (8 - (itoa (nowMs / 1000)).length) 0 ++ itoa (nowMs / 1000)) ++
        rand.drop 8) := by
    unfold typedArraySetI
    rw [if_neg (by omega)]
    have htn : (8 - ((itoa (nowMs / 1000)).length : Int)).toNat =
        8 - (itoa (nowMs / 1000)).length := by omega
    rw [htn, hsplit8, List.append_assoc]
    rw [typedArraySet_at _ _ _ _ (by simp) (by simp [hlen])]
    rw [List.drop_append_of_le_length (by simp), List.drop_replicate]
    simp [List.append_assoc]
  have hfls : jsTruthyNum none = false := rfl
  simp only [makeNonce]
  rw [if_neg (by simp [hlen, crypto_box_NONCEBYTES])]
  simp only [hfls, if_false, Bool.false_eq_true, hfill, hset1]

/-! ### Hex round trip and `crypto_hash_sha256` -/

theorem hexVal_alphabet : ∀ x < 16, hexVal (hexAlphabet.getD x '?') = some x := by decide

theorem byte_recompose : ∀ b < 256, 16 * ((b >>> 4) &&& 15) + (b &&& 15) = b := by decide

theorem nibble_hi_lt (b : Nat) : (b >>> 4) &&& 15 < 16 := by
  have := Nat.and_le_right (n := b >>> 4) (m := 15)
  omega

theorem nibble_lo_lt (b : Nat) : b &&& 15 < 16 := by
  have := Nat.and_le_right (n := b) (m := 15)
  omega

theorem hex_roundtrip : ∀ bs : List Nat, (∀ b ∈ bs, b < 256) →
    from_hexChars (to_hexChars bs) = some bs
  | [], _ => rfl
  | b :: rest, h => by
    have hb : b < 256 := h b (by simp)
    have ih := hex_roundtrip rest (fun x hx => h x (by simp [hx]))
    have h1 := hexVal_alphabet ((b >>> 4) &&& 15) (nibble_hi_lt b)
    have h2 := hexVal_alphabet (b &&& 15) (nibble_lo_lt b)
    show from_hexChars (_ :: _ :: to_hexChars rest) = _
    simp only [from_hexChars, h1, h2, ih, Option.bind_eq_bind, Option.some_bind]
    rw [byte_recompose b hb]
    rfl

theorem wordBytes_lt (x : Nat) : ∀ b ∈ wordBytes x, b < 256 := by
  intro b hb
  simp only [wordBytes, List.mem_cons, List.not_mem_nil, or_false] at hb
  rcases hb with h | h | h | h <;> omega

theorem sha256Bytes_bytes_lt (m : List Nat) : ∀ b ∈ sha256Bytes m, b < 256 := by
  intro b hb
  unfold sha256Bytes at hb
  simp only [List.mem_append] at hb
  rcases hb with (((((((h | h) | h) | h) | h) | h) | h) | h) <;> exact wordBytes_lt _ b h

theorem crypto_hash_sha256_eq (data : List Nat) :
    crypto_hash_sha256 data = sha256Bytes data := by
  unfold crypto_hash_sha256 sha256hex to_hex from_hex
  show (from_hexChars (to_hexChars (sha256Bytes data))).getD [] = _
  rw [hex_roundtrip _ (sha256Bytes_bytes_lt data)]
  rfl

/-! ### Claim C1 -/

/-- C1: the claim states that `Mailbox.messageStatus` surfaces the parsed
relay status verbatim, never rewriting the sentinels `-2` and `-1` to
`0`.  Evaluating the embedded response processing at the failing inputs
shows the code does rewrite both sentinels to `0` (while passing ordinary
statuses through), contradicting the claim, the spec's chosen behaviour
(§4.5.4, §8 scenario 3, §9) and the repository's own newer test
(`expect(ttl).toBe(MessageStatusResponse.MissingKey)`). -/
theorem claim_C1_code_divergence :
    messageStatusProcess "-2" = some 0 ∧ messageStatusProcess "-1" = some 0 ∧
      messageStatusProcess "57" = some 57 ∧ some (0 : Int) ≠ some (-2 : Int) := by
  refine ⟨by decide, by decide, by decide, by decide⟩

/-! ### Claim C2 -/

/-- C2 (counterexample): the claim states `uploadFileChunk` fails with a
`ProtocolError` when `part ≥ totalParts`.  At `part = 5`, `totalParts =
3` the embedded method succeeds and builds the relay request with
`part = 5` (no error type `ProtocolError` even exists in the code). -/
theorem claim_C2_counterexample :
    (uploadFileChunk ⟨fun m _ _ => m, List.replicate 24 0, 0⟩ "uploadID" [1, 2, 3] 5 3
        (List.replicate 32 0)).toOption.map (fun cmd => (cmd.part, cmd.last_chunk)) =
      some ((5 : Int), false) ∧ (5 : Int) ≥ 3 := by
  refine ⟨by decide, by decide⟩

/-- C2 (amended): `uploadFileChunk` performs no range validation on
`part`: for every `part` and `totalParts` (including `part ≥ totalParts`
and `part < 0`) it encrypts the chunk and sends the relay request, with
`last_chunk` set exactly when `part = totalParts - 1`. -/
theorem claim_C2_amended (env : SymCryptoEnv) (uploadID : String) (chunk : List Nat)
    (part totalParts : Int) (skey : List Nat)
    (hn : env.randomNonce.length = 24) (hms : env.nowMs / 1000 < 2 ^ 64) :
    ∃ cmd, uploadFileChunk env uploadID chunk part totalParts skey = .ok cmd ∧
      cmd.part = part ∧ cmd.last_chunk = (totalParts - 1 == part) ∧
      cmd.uploadID = uploadID := by
  have hmn := makeNonce_none_eq env.randomNonce env.nowMs hn hms
  refine
    ⟨{ uploadID := uploadID, part := part, last_chunk := (totalParts - 1 == part),
       nonce := toBase64 ((List.replicate (8 - (itoa (env.nowMs / 1000)).length) 0 ++
         itoa (env.nowMs / 1000)) ++ env.randomNonce.drop 8),
       ctext := toBase64 (env.secretbox chunk
         ((List.replicate (8 - (itoa (env.nowMs / 1000)).length) 0 ++
           itoa (env.nowMs / 1000)) ++ env.randomNonce.drop 8) skey) },
     ?_, rfl, rfl, rfl⟩
  simp only [uploadFileChunk, encodeMessageSymmetric, hmn]
  rfl

/-- C2 (witness): the amended theorem applied at a concrete call. -/
theorem claim_C2_witness :
    ∃ cmd, uploadFileChunk ⟨fun m _ _ => m, List.replicate 24 0, 0⟩ "u" [1] 5 3 [] = .ok cmd ∧
      cmd.part = 5 ∧ cmd.last_chunk = ((3 : Int) - 1 == 5) ∧ cmd.uploadID = "u" :=
  claim_C2_amended ⟨fun m _ _ => m, List.replicate 24 0, 0⟩ "u" [1] 5 3 []
    (by decide) (by decide)

/-! ### Claim C3 -/

/-- C3: whenever the difficulty is positive, every nonce returned by the
proof-of-work search `ensureNonceDifficulty` makes the 32-byte digest
`h2(clientToken || relayToken || nonce)` satisfy the specification
predicate `arrayZeroBits`: bytes `0 .. d/8` of the digest are zero and
the low `d mod 8` bits of byte `d/8` are zero. -/
theorem claim_C3 (d : Nat) (h2fn : List Nat → List Nat) (handshake : List Nat)
    (cands : List (List Nat)) (n : List Nat) (hd : 0 < d)
    (hret : ensureNonceDifficulty d h2fn handshake cands = some n)
    (hlen : (h2fn (handshake ++ n)).length = 32)
    (hbytes : ∀ b ∈ h2fn (handshake ++ n), b < 256) :
    arrayZeroBitsSpec d (h2fn (handshake ++ n)) = true := by
  have hzb := ensureNonceDifficulty_mem d h2fn handshake cands n hret
  exact arrayZeroBitsLoop_sound d _ hbytes (d + 2) d 0 (by omega)
    (fun j hj => absurd hj (Nat.not_lt_zero j)) hzb

/-- C3 (witness): the theorem applied at difficulty 1 with a digest
function that is constantly zero. -/
theorem claim_C3_witness :
    arrayZeroBitsSpec 1 ((fun _ => List.replicate 32 0) ([] ++ List.replicate 32 7)) = true :=
  claim_C3 1 (fun _ => List.replicate 32 0) [] [List.replicate 32 7] (List.replicate 32 7)
    (by decide) (by decide) (by decide) (by decide)

/-! ### Claim C4 -/

/-- C4 (counterexample): the claim quantifies over every u32 `k`, but
`makeNonce(0)` hits the falsy `if (data)` checks: bytes 8..12 are
neither zeroed nor written and keep the random nonce's contents (here
`0xAB` bytes decoding to 2880154539, not 0). -/
theorem claim_C4_counterexample :
    (makeNonce (List.replicate 24 171) 5000 (some 0)).toOption.map
        (fun l => beDecode ((l.drop 8).take 4)) = some 2880154539 ∧
      (2880154539 : Nat) ≠ 0 := by
  refine ⟨by decide, by decide⟩

/-- C4 (amended): for every u32 `k ≠ 0` (a truthy `extra` argument), the
24-byte nonce returned by `makeNonce` carries the big-endian seconds
timestamp in bytes `0..8` and the big-endian `k` in bytes `8..12`; for
`k = 0` the argument is falsy and bytes `8..12` keep their random
contents. -/
theorem claim_C4_amended (rand : List Nat) (nowMs k : Nat) (hlen : rand.length = 24)
    (ht : nowMs / 1000 < 2 ^ 64) (hk0 : k ≠ 0) (hk : k < 2 ^ 32) :
    ∃ nonce, makeNonce rand nowMs (some k) = .ok nonce ∧
      beDecode (nonce.take 8) = nowMs / 1000 ∧
      beDecode ((nonce.drop 8).take 4) = k := by
  have hla : (itoa (nowMs / 1000)).length ≤ 8 :=
    itoa_length _ 8 (by norm_num) (by norm_num; exact ht)
  have hlk : (itoa k).length ≤ 4 :=
    itoa_length k 4 (by norm_num) (by norm_num; exact hk)
  have hA : (List.replicate (8 - (itoa (nowMs / 1000)).length) 0 ++
      itoa (nowMs / 1000)).length = 8 := by
    simp
    omega
  have hB : (List.replicate (4 - (itoa k).length) 0 ++ itoa k).length = 4 := by
    simp
    omega
  refine ⟨_, makeNonce_eq rand nowMs k hlen ht hk0 hk, ?_, ?_⟩
  · rw [List.take_left' hA, beDecode_zeros_append, itoa_val]
  · rw [List.drop_left' hA, List.take_left' hB, beDecode_zeros_append, itoa_val]

/-- C4 (witness): the amended theorem applied at a concrete call. -/
theorem claim_C4_witness :
    ∃ nonce, makeNonce (List.replicate 24 171) 5000 (some 7) = .ok nonce ∧
      beDecode (nonce.take 8) = 5000 / 1000 ∧
      beDecode ((nonce.drop 8).take 4) = 7 :=
  claim_C4_amended (List.replicate 24 171) 5000 7 (by decide) (by norm_num)
    (by decide) (by norm_num)

/-! ### Claim C6 -/

/-- C6: for every byte sequence `m`, `h2(m)` is
`sha256(sha256(64 zero bytes ++ m))`, and on the Latin-1 encoding of
the pangram test vector its hex digest is the specified constant. -/
theorem claim_C6 :
    (∀ m : List Nat, h2 m = sha256Bytes (sha256Bytes (List.replicate 64 0 ++ m))) ∧
      (h2String "Heizölrückstoßabdämpfung").toOption.map to_hex =
        some "6f1d7a58b6ea177040f9bf6056913ddacef2bacff0c84b8c07d9dc01e27e147f" := by
  constructor
  · intro m
    rw [h2, crypto_hash_sha256_eq, crypto_hash_sha256_eq]
  · decide

/-! ### Claim C5 -/

/-- C5: in the download parser, a raw record of kind `"message"` whose
sender hpk resolves to a keyring tag and whose ciphertext fails
`box_open` (under the sender public key and the comm secret key) is still
parsed into a `TextMessage` whose `data` is the original `record.data`;
the `box_open` failure is not surfaced as an error. -/
theorem claim_C5 (env : MailboxCrypto) (st : MailboxState) (m : ZaxRawMessage)
    (tag gpk : String) (nb cb pb : List Nat)
    (htag : getTagByHpk st.keyRing m.source = some tag)
    (hkind : m.kind = "message")
    (hg : getGuestKey st.keyRing tag = some gpk)
    (hnb : fromBase64 m.nonce = some nb)
    (hcb : fromBase64 m.data = some cb)
    (hpb : fromBase64 gpk = some pb)
    (hsk : ∀ b ∈ st.keyRing.commKey.keyPair.boxSk, b < 256)
    (hopen : env.box_open cb nb pb st.keyRing.commKey.keyPair.boxSk = none) :
    downloadParseRecord env st m =
      .ok (.textMessage (.jstr m.data) m.time tag m.nonce) := by
  have hpriv : fromBase64 st.keyRing.commKey.privateKey =
      some st.keyRing.commKey.keyPair.boxSk :=
    fromBase64_toBase64 _ hsk
  rcases hses : jsMapGet st.sessionKeys tag with _ | sk <;>
    simp only [downloadParseRecord, htag, hkind, beq_self_eq_true, if_true,
      parseTextMessage, decodeMessage, hg, hses, Bool.false_eq_true, if_false,
      hnb, hcb, hpb, hpriv, rawDecodeMessage, hopen] <;>
    rfl

/-- C5 (witness): a concrete record whose `box_open` always fails is
passed through with its raw data. -/
theorem claim_C5_witness :
    downloadParseRecord
        ⟨fun _ _ _ _ => none, fun _ => .error "endecode", fun _ => .error "enparse"⟩
        ⟨⟨⟨⟨[], []⟩⟩, [("bob", ⟨"", "QQ=="⟩)], []⟩, []⟩
        ⟨"QQ==", 3, "QQ==", "", "message"⟩ =
      .ok (.textMessage (.jstr "QQ==") 3 "bob" "") :=
  claim_C5 ⟨fun _ _ _ _ => none, fun _ => .error "endecode", fun _ => .error "enparse"⟩
    ⟨⟨⟨⟨[], []⟩⟩, [("bob", ⟨"", "QQ=="⟩)], []⟩, []⟩
    ⟨"QQ==", 3, "QQ==", "", "message"⟩
    "bob" "" [] [65] [] (by decide) rfl (by decide) (by decide) (by decide) (by decide)
    (by decide) rfl

/-! ### Claim C7 -/

/-- C7 (amended): `CryptoStorage.get` returns `null` when the ciphertext
row or the nonce row is absent (or empty, which JavaScript treats the
same); when both rows hold data and `crypto_secretbox_open` fails to
authenticate, `get` throws the decryption error instead of returning
`null`; when decryption succeeds, `get` returns the decrypted JSON value
— which is `null` exactly when the stored serialized value was JSON
`null`. -/
theorem claim_C7_amended (env : StorageCryptoEnv) (storageKey : List Nat)
    (storageId : String) (driver : List (String × String)) (tag : String) :
    ((jsMapGet driver (prefixedTag storageId tag) = none ∨
        jsMapGet driver (nonceTagOf storageId tag) = none) →
      csGet env storageKey storageId driver tag = .ok .jnull) ∧
    (∀ d n db nb,
      jsMapGet driver (prefixedTag storageId tag) = some d →
      jsMapGet driver (nonceTagOf storageId tag) = some n →
      d ≠ "" → n ≠ "" → fromBase64 d = some db → fromBase64 n = some nb →
      env.secretbox_open db nb storageKey = none →
      csGet env storageKey storageId driver tag =
        .error "[CryptoStorage] crypto_secretbox_open: decryption error") ∧
    (∀ d n db nb src dec v,
      jsMapGet driver (prefixedTag storageId tag) = some d →
      jsMapGet driver (nonceTagOf storageId tag) = some n →
      d ≠ "" → n ≠ "" → fromBase64 d = some db → fromBase64 n = some nb →
      env.secretbox_open db nb storageKey = some src →
      env.decode_utf8 src = .ok dec → env.jsonParse dec = .ok v →
      csGet env storageKey storageId driver tag = .ok v) := by
  refine ⟨?_, ?_, ?_⟩
  · intro h
    unfold csGet
    rcases h with h | h
    · rw [h]
      simp [jsFalsyStr]
    · rw [h]
      simp [jsFalsyStr]
  · intro d n db nb h1 h2 hd hn hdb hnb hopen
    unfold csGet
    rw [h1, h2]
    simp only [jsFalsyStr, beq_eq_false_iff_ne.mpr hd, beq_eq_false_iff_ne.mpr hn,
      Bool.or_false, Bool.false_eq_true, if_false, hdb, hnb, hopen]
  · intro d n db nb src dec v h1 h2 hd hn hdb hnb hopen hdec hparse
    unfold csGet
    rw [h1, h2]
    simp only [jsFalsyStr, beq_eq_false_iff_ne.mpr hd, beq_eq_false_iff_ne.mpr hn,
      Bool.or_false, Bool.false_eq_true, if_false, hdb, hnb, hopen, hdec]
    exact hparse

/-- C7 (counterexample): the claim's "returns null exactly when a row is
absent" fails: `save(tag, null)` (a legal call; `JSON.stringify(null)`
is `"null"`) writes both rows, yet `get(tag)` returns `null` although
both rows are present and decryption succeeds. -/
theorem claim_C7_counterexample :
    (csSave ⟨fun m _ _ => m, fun b _ _ => some b, fun s => .ok (s.data.map Char.toNat),
        fun l => .ok (String.mk (l.map Char.ofNat)),
        fun s => if s = "null" then .ok .jnull else .error "parse",
        fun _ => "null", [0]⟩ [] (storageIdOf "id") [] "tag" .jnull).toOption =
      some [(prefixedTag (storageIdOf "id") "tag", "bnVsbA=="),
            (nonceTagOf (storageIdOf "id") "tag", "AA==")] ∧
    jsMapGet [(prefixedTag (storageIdOf "id") "tag", "bnVsbA=="),
        (nonceTagOf (storageIdOf "id") "tag", "AA==")]
      (prefixedTag (storageIdOf "id") "tag") = some "bnVsbA==" ∧
    jsMapGet [(prefixedTag (storageIdOf "id") "tag", "bnVsbA=="),
        (nonceTagOf (storageIdOf "id") "tag", "AA==")]
      (nonceTagOf (storageIdOf "id") "tag") = some "AA==" ∧
    csGet ⟨fun m _ _ => m, fun b _ _ => some b, fun s => .ok (s.data.map Char.toNat),
        fun l => .ok (String.mk (l.map Char.ofNat)),
        fun s => if s = "null" then .ok .jnull else .error "parse",
        fun _ => "null", [0]⟩ []
      (storageIdOf "id")
      [(prefixedTag (storageIdOf "id") "tag", "bnVsbA=="),
       (nonceTagOf (storageIdOf "id") "tag", "AA==")] "tag" = .ok .jnull := by
  refine ⟨by decide, by decide, by decide, by rfl⟩

/-- C7 (witness): the amended theorem's decryption-error branch applied
at a concrete store whose `secretbox_open` rejects the ciphertext. -/
theorem claim_C7_witness :
    csGet ⟨fun m _ _ => m, fun _ _ _ => none, fun s => .ok (s.data.map Char.toNat),
        fun l => .ok (String.mk (l.map Char.ofNat)),
        fun s => if s = "null" then .ok .jnull else .error "parse",
        fun _ => "null", [0]⟩ []
      (storageIdOf "id")
      [(prefixedTag (storageIdOf "id") "tag", "bnVsbA=="),
       (nonceTagOf (storageIdOf "id") "tag", "AA==")] "tag" =
      .error "[CryptoStorage] crypto_secretbox_open: decryption error" :=
  (claim_C7_amended _ [] (storageIdOf "id") _ "tag").2.1 "bnVsbA==" "AA=="
    [110, 117, 108, 108] [0] (by decide) (by decide) (by decide) (by decide)
    (by decide) (by decide) rfl

/-! ### JavaScript `Map` lemmas -/

theorem jsMapSet_cons_ne {β : Type} (p : String × β) (rest : List (String × β))
    (k : String) (v : β) (h : p.1 ≠ k) :
    jsMapSet (p :: rest) k v = p :: jsMapSet rest k v := by
  have hb : (p.1 == k) = false := beq_eq_false_iff_ne.mpr h
  unfold jsMapSet
  simp only [List.any_cons, hb, Bool.false_or]
  by_cases ha : rest.any (fun q => q.1 == k) = true
  · simp [ha, hb, h]
  · simp [ha, hb, h]

theorem jsMapGet_jsMapSet_self {β : Type} :
    ∀ (m : List (String × β)) (k : String) (v : β),
      jsMapGet (jsMapSet m k v) k = some v
  | [], k, v => by simp [jsMapSet, jsMapGet, List.find?]
  | p :: rest, k, v => by
    by_cases h : p.1 = k
    · have hb : (p.1 == k) = true := by simp [h]
      unfold jsMapSet
      simp only [List.any_cons, hb, Bool.true_or, if_true, List.map_cons]
      simp [jsMapGet, List.find?, hb]
    · rw [jsMapSet_cons_ne p rest k v h]
      have hb : (p.1 == k) = false := beq_eq_false_iff_ne.mpr h
      show jsMapGet (p :: jsMapSet rest k v) k = some v
      unfold jsMapGet
      simp only [List.find?, hb]
      exact jsMapGet_jsMapSet_self rest k v

theorem getTagByHpk_set :
    ∀ (m : List (String × KeyRecordGlow)) (tag : String) (rec : KeyRecordGlow),
      (∀ p ∈ m, p.1 ≠ tag → p.2.hpk ≠ rec.hpk) →
      ((jsMapSet m tag rec).find? (fun p => p.2.hpk == rec.hpk)).map (fun p => p.1) =
        some tag
  | [], tag, rec, _ => by simp [jsMapSet, List.find?]
  | p :: rest, tag, rec, hother => by
    by_cases h : p.1 = tag
    · have hb : (p.1 == tag) = true := by simp [h]
      unfold jsMapSet
      simp only [List.any_cons, hb, Bool.true_or, if_true, List.map_cons]
      simp [List.find?, hb]
    · rw [jsMapSet_cons_ne p rest tag rec h]
      have hne : p.2.hpk ≠ rec.hpk := hother p (by simp) h
      have hb : (p.2.hpk == rec.hpk) = false := beq_eq_false_iff_ne.mpr hne
      simp only [List.find?, hb]
      exact getTagByHpk_set rest tag rec (fun q hq hqt => hother q (by simp [hq]) hqt)

/-! ### Claim C9 -/

/-- C9 (amended): after `addGuest(tag, pk)`, `getGuestKey(tag)` is `pk`,
the stored record's `hpk` is deterministically `base64(h2(pk))`, and
`getTagByHpk(base64(h2(pk)))` is `tag` provided no other guest record
carries the same `hpk` (the linear scan returns the first match in
insertion order). -/
theorem claim_C9_amended (drv : NaClDriverModel) (st : KeyRingState) (tag pk : String)
    (pkBytes : List Nat) (hdec : fromBase64 pk = some pkBytes)
    (hother : ∀ p ∈ st.guestKeys, p.1 ≠ tag → p.2.hpk ≠ toBase64 (drv.h2fn pkBytes)) :
    ∃ st',
      addGuest drv st tag pk = .ok (toBase64 (drv.h2fn pkBytes), st') ∧
      jsMapGet st'.guestKeys tag = some ⟨pk, toBase64 (drv.h2fn pkBytes)⟩ ∧
      getGuestKey st' tag = some pk ∧
      getTagByHpk st' (toBase64 (drv.h2fn pkBytes)) = some tag := by
  refine ⟨saveGuests
    { st with guestKeys := jsMapSet st.guestKeys tag ⟨pk, toBase64 (drv.h2fn pkBytes)⟩ },
    ?_, ?_, ?_, ?_⟩
  · simp only [addGuest, hdec]
  · show jsMapGet (jsMapSet st.guestKeys tag _) tag = _
    exact jsMapGet_jsMapSet_self st.guestKeys tag _
  · show (jsMapGet (jsMapSet st.guestKeys tag _) tag).map _ = _
    rw [jsMapGet_jsMapSet_self st.guestKeys tag _]
    rfl
  · exact getTagByHpk_set st.guestKeys tag ⟨pk, toBase64 (drv.h2fn pkBytes)⟩ hother

/-- C9 (witness): the amended theorem applied to an empty keyring. -/
theorem claim_C9_witness :
    ∃ st',
      addGuest ⟨fun x => x, fun x => x, ⟨[], []⟩⟩ ⟨⟨⟨[], []⟩⟩, [], []⟩ "bob" "" =
        .ok (toBase64 ((fun x : List Nat => x) []), st') ∧
      jsMapGet st'.guestKeys "bob" = some ⟨"", toBase64 ((fun x : List Nat => x) [])⟩ ∧
      getGuestKey st' "bob" = some "" ∧
      getTagByHpk st' (toBase64 ((fun x : List Nat => x) [])) = some "bob" :=
  claim_C9_amended ⟨fun x => x, fun x => x, ⟨[], []⟩⟩ ⟨⟨⟨[], []⟩⟩, [], []⟩ "bob" "" []
    (by decide) (fun p hp => by simp at hp)

/-- C9 (counterexample): the claim as stated fails when the same public
key is already registered under an earlier tag: after
`addGuest("a", pk); addGuest("b", pk)` the lookup
`getTagByHpk(base64(h2(pk)))` returns `"a"`, not `"b"`.  The driver here
is the real `h2` (double SHA-256). -/
theorem claim_C9_counterexample :
    ((addGuest ⟨h2, fun x => x, ⟨[], []⟩⟩ ⟨⟨⟨[], []⟩⟩, [], []⟩ "a"
        (toBase64 (List.replicate 32 0))).toOption.bind (fun r1 =>
      (addGuest ⟨h2, fun x => x, ⟨[], []⟩⟩ r1.2 "b"
        (toBase64 (List.replicate 32 0))).toOption.map (fun r2 =>
          getTagByHpk r2.2 (toBase64 (h2 (List.replicate 32 0)))))) = some (some "a") ∧
      some (some "a") ≠ some (some "b") := by
  have hdec : fromBase64 (toBase64 (List.replicate 32 0)) = some (List.replicate 32 0) :=
    fromBase64_toBase64 _ (by simp)
  have hab : (("a" : String) == "b") = false := by decide
  constructor
  · simp only [addGuest, hdec, Except.toOption, Option.some_bind, Option.map_some]
    simp [getTagByHpk, saveGuests, storageSave, jsMapSet, hab, List.find?]
  · simp

/-! ### Claim C10 -/

/-- C10: `removeGuest(tag)` resolves to `true` whether or not `tag` is a
guest; when the tag is absent the keyring state — the in-memory guest
map and the storage write journal — is returned unchanged (no storage
write happens). -/
theorem claim_C10 (st : KeyRingState) (tag : String) :
    (removeGuest st tag).1 = true ∧
      (jsMapHas st.guestKeys tag = false → removeGuest st tag = (true, st)) := by
  constructor
  · unfold removeGuest
    split <;> rfl
  · intro h
    unfold removeGuest
    rw [h]
    rfl

/-- C10 (witness): the theorem applied to a keyring that does not know
the tag `"x"`. -/
theorem claim_C10_witness :
    (removeGuest ⟨⟨⟨[], []⟩⟩, [("y", ⟨"", ""⟩)], []⟩ "x").1 = true ∧
      removeGuest ⟨⟨⟨[], []⟩⟩, [("y", ⟨"", ""⟩)], []⟩ "x" =
        (true, ⟨⟨⟨[], []⟩⟩, [("y", ⟨"", ""⟩)], []⟩) :=
  ⟨(claim_C10 ⟨⟨⟨[], []⟩⟩, [("y", ⟨"", ""⟩)], []⟩ "x").1,
   (claim_C10 ⟨⟨⟨[], []⟩⟩, [("y", ⟨"", ""⟩)], []⟩ "x").2 (by decide)⟩

/-! ### Claim C8: backup/restore round trip -/

theorem jsMapSet_append {β : Type} (m : List (String × β)) (k : String) (v : β)
    (h : ∀ p ∈ m, p.1 ≠ k) : jsMapSet m k v = m ++ [(k, v)] := by
  unfold jsMapSet
  have ha : m.any (fun p => p.1 == k) = false := by
    rw [List.any_eq_false]
    intro p hp
    simpa using h p hp
  rw [ha]
  simp

theorem backup_foldl :
    ∀ (l : List (String × KeyRecordGlow)) (acc : List (String × String)),
      (∀ p ∈ l, ∀ q ∈ acc, q.1 ≠ p.1) →
      (l.map (fun p => p.1)).Nodup →
      l.foldl (fun acc p => if p.1 ≠ "" then jsMapSet acc p.1 p.2.pk else acc) acc =
        acc ++ (l.filter (fun p => p.1 != "")).map (fun p => (p.1, p.2.pk))
  | [], acc, _, _ => by simp
  | p :: rest, acc, hdisj, hnd => by
    simp only [List.foldl_cons]
    have hndr : (rest.map (fun p => p.1)).Nodup := by
      simp only [List.map_cons, List.nodup_cons] at hnd
      exact hnd.2
    have hpk : p.1 ∉ rest.map (fun p => p.1) := by
      simp only [List.map_cons, List.nodup_cons] at hnd
      exact hnd.1
    by_cases hp : p.1 = ""
    · rw [if_neg (by simp [hp])]
      rw [backup_foldl rest acc (fun r hr => hdisj r (by simp [hr])) hndr]
      congr 2
      simp [List.filter_cons, hp]
    · rw [if_pos hp]
      rw [jsMapSet_append acc p.1 p.2.pk (fun q hq => hdisj p (by simp) q hq)]
      rw [backup_foldl rest (acc ++ [(p.1, p.2.pk)]) ?_ hndr]
      · rw [List.filter_cons, if_pos (by simpa using hp)]
        simp [List.append_assoc]
      · intro r hr q hq
        rcases List.mem_append.mp hq with hq | hq
        · exact hdisj r (by simp [hr]) q hq
        · simp only [List.mem_singleton] at hq
          subst hq
          intro hc
          exact hpk (by rw [hc]; exact List.mem_map_of_mem _ hr)

theorem fromBackup_loop (drv : NaClDriverModel) :
    ∀ (entries : List (String × String)) (st : KeyRingState),
      (∀ p ∈ entries, p.1 ≠ commKeyTag) →
      (∀ p ∈ entries, (fromBase64 p.2).isSome = true) →
      (∀ p ∈ entries, ∀ q ∈ st.guestKeys, q.1 ≠ p.1) →
      (entries.map (fun p => p.1)).Nodup →
      ∃ st',
        entries.foldlM (fun st p =>
          if p.1 ≠ commKeyTag then (addGuest drv st p.1 p.2).map (fun r => r.2)
          else pure st) st = .ok st' ∧
        st'.commKey = st.commKey ∧
        st'.guestKeys = st.guestKeys ++ entries.map (fun p =>
          (p.1, (⟨p.2, toBase64 (drv.h2fn ((fromBase64 p.2).getD []))⟩ : KeyRecordGlow)))
  | [], st, _, _, _, _ => ⟨st, rfl, rfl, by simp⟩
  | p :: rest, st, hck, hdec, hdisj, hnd => by
    obtain ⟨bytes, hb⟩ := Option.isSome_iff_exists.mp (hdec p (by simp))
    have hrec : jsMapSet st.guestKeys p.1 ⟨p.2, toBase64 (drv.h2fn bytes)⟩ =
        st.guestKeys ++ [(p.1, ⟨p.2, toBase64 (drv.h2fn bytes)⟩)] :=
      jsMapSet_append _ _ _ (fun q hq => hdisj p (by simp) q hq)
    have hndr : (rest.map (fun p => p.1)).Nodup := by
      simp only [List.map_cons, List.nodup_cons] at hnd
      exact hnd.2
    have hpk : p.1 ∉ rest.map (fun p => p.1) := by
      simp only [List.map_cons, List.nodup_cons] at hnd
      exact hnd.1
    obtain ⟨st'', hfold, hcomm, hguests⟩ := fromBackup_loop drv rest
      (saveGuests { st with
        guestKeys := st.guestKeys ++ [(p.1, ⟨p.2, toBase64 (drv.h2fn bytes)⟩)] })
      (fun r hr => hck r (by simp [hr]))
      (fun r hr => hdec r (by simp [hr]))
      (by
        intro r hr q hq
        simp only [saveGuests, storageSave, List.mem_append] at hq
        rcases hq with hq | hq
        · exact hdisj r (by simp [hr]) q hq
        · simp only [List.mem_singleton] at hq
          subst hq
          intro hc
          exact hpk (by rw [hc]; exact List.mem_map_of_mem _ hr))
      hndr
    refine ⟨st'', ?_, ?_, ?_⟩
    · simp only [List.foldlM_cons]
      rw [if_pos (hck p (by simp))]
      simp only [addGuest, hb, hrec, Except.map_ok]
      exact hfold
    · rw [hcomm]
      rfl
    · rw [hguests]
      simp only [saveGuests, storageSave, List.map_cons, hb]
      simp [List.append_assoc]

/-- C8 (amended): for every keyring whose comm keypair is consistent
(the public half derives from the secret half, as every keypair produced
by the driver is), whose guest tags avoid the reserved backup slot
`__::commKey::__` and are unique, and whose guest keys are well-formed
Base64, restoring a fresh identity from its backup round-trips:
`fromBackup(id, ring.backup()).backup() == ring.backup()` and the
restored `getPubCommKey()` equals the original. -/
theorem claim_C8_amended (drv : NaClDriverModel) (ring : KeyRingState)
    (hsk : ∀ b ∈ ring.commKey.keyPair.boxSk, b < 256)
    (hcons : ring.commKey.keyPair.boxPk = drv.scalarmultBase ring.commKey.keyPair.boxSk)
    (htags : ∀ p ∈ ring.guestKeys, p.1 ≠ commKeyTag)
    (hdecg : ∀ p ∈ ring.guestKeys, (fromBase64 p.2.pk).isSome = true)
    (hnd : (ring.guestKeys.map (fun p => p.1)).Nodup) :
    ∃ restored, fromBackup drv (backup ring) = .ok restored ∧
      backup restored = backup ring ∧
      getPubCommKey restored = getPubCommKey ring := by
  have hbk : backup ring = (commKeyTag, ring.commKey.privateKey) ::
      (ring.guestKeys.filter (fun p => p.1 != "")).map (fun p => (p.1, p.2.pk)) := by
    unfold backup
    rw [backup_foldl ring.guestKeys [(commKeyTag, ring.commKey.privateKey)] ?_ hnd]
    · simp
    · intro p hp q hq
      simp only [List.mem_singleton] at hq
      subst hq
      exact Ne.symm (htags p hp)
  have hglck : ∀ e ∈ (ring.guestKeys.filter (fun p => p.1 != "")).map
      (fun p => (p.1, p.2.pk)), e.1 ≠ commKeyTag := by
    intro e he
    simp only [List.mem_map, List.mem_filter] at he
    obtain ⟨p, ⟨hpmem, _⟩, rfl⟩ := he
    exact htags p hpmem
  have hgldec : ∀ e ∈ (ring.guestKeys.filter (fun p => p.1 != "")).map
      (fun p => (p.1, p.2.pk)), (fromBase64 e.2).isSome = true := by
    intro e he
    simp only [List.mem_map, List.mem_filter] at he
    obtain ⟨p, ⟨hpmem, _⟩, rfl⟩ := he
    exact hdecg p hpmem
  have hglne : ∀ e ∈ (ring.guestKeys.filter (fun p => p.1 != "")).map
      (fun p => (p.1, p.2.pk)), e.1 ≠ "" := by
    intro e he
    simp only [List.mem_map, List.mem_filter] at he
    obtain ⟨p, ⟨_, hpne⟩, rfl⟩ := he
    simpa using hpne
  have hglnd : (((ring.guestKeys.filter (fun p => p.1 != "")).map
      (fun p => (p.1, p.2.pk))).map (fun e => e.1)).Nodup := by
    rw [List.map_map]
    have hsub : List.Sublist
        ((ring.guestKeys.filter (fun p => p.1 != "")).map
          ((fun e : String × String => e.1) ∘ (fun p : String × KeyRecordGlow => (p.1, p.2.pk))))
        (ring.guestKeys.map (fun p => p.1)) :=
      (List.filter_sublist _).map _
    exact hnd.sublist hsub
  have hget : jsMapGet (backup ring) commKeyTag = some ring.commKey.privateKey := by
    rw [hbk]
    simp [jsMapGet, List.find?]
  have hpriv : fromBase64 ring.commKey.privateKey = some ring.commKey.keyPair.boxSk :=
    fromBase64_toBase64 _ hsk
  obtain ⟨st', hfold, hcomm, hguests⟩ := fromBackup_loop drv
    ((ring.guestKeys.filter (fun p => p.1 != "")).map (fun p => (p.1, p.2.pk)))
    (setCommFromSecKey drv (keyRingNew drv) ring.commKey.keyPair.boxSk)
    hglck hgldec (by intro r _ q hq; simp [setCommFromSecKey, keyRingNew, storageSave] at hq)
    hglnd
  have hfb : fromBackup drv (backup ring) = .ok st' := by
    unfold fromBackup
    simp only [hget, hpriv]
    rw [hbk]
    simp only [List.foldlM_cons]
    rw [if_neg (by simp)]
    exact hfold
  have hcomm' : st'.commKey =
      ⟨⟨drv.scalarmultBase ring.commKey.keyPair.boxSk, ring.commKey.keyPair.boxSk⟩⟩ := by
    rw [hcomm]
    rfl
  have hguests' : st'.guestKeys = ((ring.guestKeys.filter (fun p => p.1 != "")).map
      (fun p => (p.1, p.2.pk))).map (fun e =>
        (e.1, (⟨e.2, toBase64 (drv.h2fn ((fromBase64 e.2).getD []))⟩ : KeyRecordGlow))) := by
    rw [hguests]
    simp [setCommFromSecKey, keyRingNew, storageSave]
  have hpriv' : st'.commKey.privateKey = ring.commKey.privateKey := by
    rw [hcomm']
    rfl
  refine ⟨st', hfb, ?_, ?_⟩
  · rw [hbk]
    unfold backup
    rw [hguests', hpriv']
    rw [backup_foldl _ [(commKeyTag, ring.commKey.privateKey)] ?_ ?_]
    · rw [List.filter_eq_self.mpr ?_]
      · simp only [List.map_map, List.singleton_append]
        rfl
      · intro e he
        simp only [List.map_map, List.mem_map] at he
        obtain ⟨a, hamem, rfl⟩ := he
        simpa using (List.mem_filter.mp hamem).2
    · intro p hp q hq
      simp only [List.mem_singleton] at hq
      subst hq
      simp only [List.map_map, List.mem_map] at hp
      obtain ⟨a, hamem, rfl⟩ := hp
      exact Ne.symm (htags a (List.mem_filter.mp hamem).1)
    · rw [List.map_map]
      have hco : ((fun e : String × KeyRecordGlow => e.1) ∘ (fun e : String × String =>
          (e.1, (⟨e.2, toBase64 (drv.h2fn ((fromBase64 e.2).getD []))⟩ : KeyRecordGlow)))) =
          (fun e : String × String => e.1) := rfl
      rw [hco]
      simpa using hglnd
  · show st'.commKey.publicKey = ring.commKey.publicKey
    rw [hcomm']
    show toBase64 (drv.scalarmultBase ring.commKey.keyPair.boxSk) = _
    rw [← hcons]
    rfl

/-- C8 (counterexample): the round trip fails for a keyring holding a
guest tagged with the reserved comm-key slot `__::commKey::__`: when the
backup object is built, that guest's public key overwrites the comm-key
entry, and the restored keyring derives its comm keypair from the
guest's public key, so `getPubCommKey` differs.  (`scalarmultBase` is
instantiated with an arbitrary injective stand-in for the external
`tweetnacl` base-point multiplication; on the real curve the two derived
public keys differ as well, since the secrets differ.) -/
theorem claim_C8_counterexample :
    ((addGuest ⟨fun x => x, fun x => x, ⟨List.replicate 32 1, List.replicate 32 1⟩⟩
        (keyRingNew ⟨fun x => x, fun x => x, ⟨List.replicate 32 1, List.replicate 32 1⟩⟩)
        commKeyTag (toBase64 (List.replicate 32 2))).toOption.map (fun r =>
          ((fromBackup ⟨fun x => x, fun x => x, ⟨List.replicate 32 1, List.replicate 32 1⟩⟩
              (backup r.2)).toOption.map getPubCommKey,
            getPubCommKey r.2))) =
      some (some (toBase64 (List.replicate 32 2)), toBase64 (List.replicate 32 1)) ∧
      toBase64 (List.replicate 32 2) ≠ toBase64 (List.replicate 32 1) := by
  constructor
  · decide
  · decide

/-- C8 (witness): the amended theorem applied to a concrete one-guest
keyring. -/
theorem claim_C8_witness :
    ∃ restored,
      fromBackup ⟨fun x => x, fun x => x, ⟨[1], [1]⟩⟩
          (backup ⟨⟨⟨[1], [1]⟩⟩, [("bob", ⟨toBase64 [2], ""⟩)], []⟩) = .ok restored ∧
      backup restored = backup ⟨⟨⟨[1], [1]⟩⟩, [("bob", ⟨toBase64 [2], ""⟩)], []⟩ ∧
      getPubCommKey restored =
        getPubCommKey ⟨⟨⟨[1], [1]⟩⟩, [("bob", ⟨toBase64 [2], ""⟩)], []⟩ :=
  claim_C8_amended ⟨fun x => x, fun x => x, ⟨[1], [1]⟩⟩
    ⟨⟨⟨[1], [1]⟩⟩, [("bob", ⟨toBase64 [2], ""⟩)], []⟩
    (by intro b hb; simp only [List.mem_singleton] at hb; omega) rfl
    (by intro p hp; simp only [List.mem_singleton] at hp; subst hp; decide)
    (by intro p hp; simp only [List.mem_singleton] at hp; subst hp; decide)
    (by simp)
